import Mathlib

/-!
Verification development for the onevox speech-to-text daemon.

Shallow embedding of the streaming audio pipeline: the energy-based voice
activity detector (src/vad/energy.rs), the VAD processor with pre-roll and
post-roll buffering (src/vad/processor.rs), the audio capture configuration
and channel sizing (src/audio/capture.rs, src/audio.rs), the dictation
engine stop path (src/daemon/dictation.rs) and the model runtime variants
(src/models/*.rs).

Modelling conventions:
* `f32` values are modelled as exact rationals; IEEE rounding and overflow
  are not modelled.  NaN is modelled explicitly: an `F32` is `Option ℚ`
  with `none` standing for NaN.  Arithmetic propagates `none` the way f32
  arithmetic propagates NaN, and every f32 comparison `a > b` is false
  when either side is NaN, as in Rust.
* `f32::sqrt` is an abstract parameter `sq : ℚ → ℚ` applied to non-negative
  arguments; `sqrt` of a negative argument is NaN, as in IEEE.
* Rust `Vec`/`VecDeque` become `List` (front of the deque = head of the
  list); machine integers (`u32`, `u64`, `usize`) become `ℕ` -- all the
  integer computations reasoned about below stay far below 2^32.
* A Rust panic (the `unwrap` of `partial_cmp` inside the adaptive-median
  sort) is modelled by an `Option` result: `none` means the call panics.
* `std::time::Instant` is an opaque tag, modelled as `ℕ`.
* Rust `String` is modelled as `List Char` so that `str::trim` can be
  reasoned about directly.
-/

namespace Onevox

/-- An f32 value: `some q` is the finite value `q`, `none` is NaN. -/
abbrev F32 := Option ℚ

/-- f32 addition; NaN propagates. -/
def addF : F32 → F32 → F32
  | some a, some b => some (a + b)
  | _, _ => none

/-- f32 multiplication; NaN propagates. -/
def mulF : F32 → F32 → F32
  | some a, some b => some (a * b)
  | _, _ => none

/-- f32 division; NaN propagates, and a zero divisor gives a non-finite
result (lumped with NaN -- every use in the embedded code divides by a
non-zero length). -/
def divF : F32 → F32 → F32
  | some a, some b => if b = 0 then none else some (a / b)
  | _, _ => none

/-- f32 strict greater-than: false whenever either side is NaN. -/
def fgt (a b : F32) : Bool :=
  match a, b with
  | some x, some y => decide (y < x)
  | _, _ => false

/-- f32 square root, with the square-root function on non-negative
rationals abstracted as `sq`; the square root of a negative value is NaN. -/
def sqrtF (sq : ℚ → ℚ) : F32 → F32
  | none => none
  | some q => if q < 0 then none else some (sq q)

/-- `AudioChunk` from src/audio/buffer.rs: samples, sample rate, capture
timestamp (an opaque `Instant`, modelled as `ℕ`). -/
structure AudioChunk where
  samples : List F32
  sample_rate : ℕ
  timestamp : ℕ
  deriving DecidableEq, Repr

/-- `AudioChunk::duration_ms`: `(len as f32 / rate as f32 * 1000.0) as u64`,
modelled as exact arithmetic truncated to a natural number.  (For rate 0 the
Rust expression is NaN and casts to 0; natural division by 0 is 0 too.) -/
def AudioChunk.duration_ms (c : AudioChunk) : ℕ :=
  c.samples.length * 1000 / c.sample_rate

/-- `AudioChunk::is_empty`. -/
def AudioChunk.is_empty (c : AudioChunk) : Bool :=
  c.samples.isEmpty

/-- `VadDecision` from src/vad/detector.rs. -/
inductive VadDecision where
  | Speech
  | Silence
  deriving DecidableEq, Repr

/-- `EnergyVadConfig` from src/vad/energy.rs.  `threshold` is an f32
configuration constant, assumed finite (non-NaN). -/
structure EnergyVadConfig where
  threshold : ℚ
  min_speech_chunks : ℕ
  min_silence_chunks : ℕ
  adaptive : Bool
  adaptive_window_size : ℕ
  deriving DecidableEq, Repr

/-- State of `EnergyVad` from src/vad/energy.rs (the `config` field of the
Rust struct is included, as in the source). -/
structure EnergyVad where
  config : EnergyVadConfig
  speech_count : ℕ
  silence_count : ℕ
  current_state : VadDecision
  energy_history : List F32
  background_energy : F32
  deriving DecidableEq, Repr

/-- `EnergyVad::new`. -/
def EnergyVad.new (config : EnergyVadConfig) : EnergyVad :=
  { config := config
    speech_count := 0
    silence_count := 0
    current_state := VadDecision.Silence
    energy_history := []
    background_energy := some 0 }

/-- Sum of squares of the samples, as in
`samples.iter().map(|&s| s * s).sum::<f32>()` (left fold from 0.0). -/
def sumSquares (samples : List F32) : F32 :=
  samples.foldl (fun acc s => addF acc (mulF s s)) (some 0)

/-- `EnergyVad::calculate_rms_energy`: 0.0 for an empty slice, otherwise
`sqrt(sum_squares / len)`. -/
def calculate_rms_energy (sq : ℚ → ℚ) (samples : List F32) : F32 :=
  if samples.isEmpty then some 0
  else sqrtF sq (divF (sumSquares samples) (some (samples.length : ℚ)))

/-- Push one energy value at the back of the sliding window, then pop one
value from the front if the window now exceeds `n` entries (the
`push_back` / `if len > n { pop_front }` pair in
`EnergyVad::update_background_energy`). -/
def pushWindow (n : ℕ) (hist : List F32) (e : F32) : List F32 :=
  let h := hist ++ [e]
  if n < h.length then h.drop 1 else h

/-- The `sort_by(|a, b| a.partial_cmp(b).unwrap())` call of
`EnergyVad::update_background_energy`.  With at least two elements any
comparison-based sort invokes the comparator on every element, so a NaN
entry makes `partial_cmp` return `None` and the `unwrap` panic (`none`
here); a list of at most one element is returned without comparisons.
On NaN-free input it is a plain sort. -/
def sortedF (l : List F32) : Option (List F32) :=
  if l.length ≤ 1 then some l
  else if l.any (fun x => x.isNone) then none
  else some (((l.filterMap id).insertionSort (fun a b => a ≤ b)).map some)

/-- `EnergyVad::update_background_energy`: in adaptive mode push the energy
into the sliding window, trim it, and set the background estimate to the
median (upper middle of the sorted window) when the window is non-empty.
`none` models the panic of the sort on NaN entries. -/
def update_background_energy (st : EnergyVad) (energy : F32) : Option EnergyVad :=
  if st.config.adaptive = false then some st
  else
    let hist := pushWindow st.config.adaptive_window_size st.energy_history energy
    if hist.isEmpty then some { st with energy_history := hist }
    else
      match sortedF hist with
      | none => none
      | some sorted =>
          some { st with
                   energy_history := hist
                   background_energy := sorted.getD (sorted.length / 2) none }

/-- `EnergyVad::get_threshold`: background + offset when adaptive, else the
raw configured threshold. -/
def get_threshold (st : EnergyVad) : F32 :=
  if st.config.adaptive then addF st.background_energy (some st.config.threshold)
  else some st.config.threshold

/-- The hysteresis state machine of `EnergyVad::detect` (src/vad/energy.rs
lines 116-153), applied after the `has_speech` comparison. -/
def vadStep (st : EnergyVad) (has_speech : Bool) : VadDecision × EnergyVad :=
  match st.current_state with
  | VadDecision.Silence =>
      if has_speech then
        let sc := st.speech_count + 1
        let st1 := { st with speech_count := sc, silence_count := 0 }
        if st.config.min_speech_chunks ≤ sc then
          (VadDecision.Speech, { st1 with current_state := VadDecision.Speech })
        else (VadDecision.Silence, st1)
      else (VadDecision.Silence, { st with speech_count := 0 })
  | VadDecision.Speech =>
      if has_speech then
        (VadDecision.Speech,
         { st with silence_count := 0, speech_count := st.speech_count + 1 })
      else
        let sc := st.silence_count + 1
        let st1 := { st with silence_count := sc, speech_count := 0 }
        if st.config.min_silence_chunks ≤ sc then
          (VadDecision.Silence, { st1 with current_state := VadDecision.Silence })
        else (VadDecision.Speech, st1)

/-- `EnergyVad::detect`: compute the chunk RMS, update the background
estimate (possibly panicking, hence `Option`), compare against the
effective threshold and run the hysteresis state machine. -/
def detect (sq : ℚ → ℚ) (st : EnergyVad) (chunk : AudioChunk) :
    Option (VadDecision × EnergyVad) := do
  let energy := calculate_rms_energy sq chunk.samples
  let st1 ← update_background_energy st energy
  let threshold := get_threshold st1
  let has_speech := fgt energy threshold
  return vadStep st1 has_speech

/-- The `has_speech` flag computed inside `EnergyVad::detect` for a chunk,
exposed as a function of the incoming state (and `none` when the update
step panics). -/
def detectHasSpeech (sq : ℚ → ℚ) (st : EnergyVad) (chunk : AudioChunk) :
    Option Bool :=
  (update_background_energy st (calculate_rms_energy sq chunk.samples)).map
    (fun st1 => fgt (calculate_rms_energy sq chunk.samples) (get_threshold st1))

/-- `VadProcessorConfig` from src/vad/processor.rs. -/
structure VadProcessorConfig where
  pre_roll_ms : ℕ
  post_roll_ms : ℕ
  deriving DecidableEq, Repr

/-- `ProcessorState` from src/vad/processor.rs. -/
inductive ProcessorState where
  | Idle
  | InSpeech
  deriving DecidableEq, Repr

/-- `SpeechSegment` from src/vad/processor.rs. -/
structure SpeechSegment where
  chunks : List AudioChunk
  duration_ms : ℕ
  start_time : ℕ
  deriving DecidableEq, Repr

/-- `SpeechSegment::new`: total duration is the sum of chunk durations, the
start time is the first chunk timestamp (`Instant::now()` for an empty
chunk list, modelled as the tag 0 -- the emission path never builds an
empty segment). -/
def SpeechSegment.new (chunks : List AudioChunk) : SpeechSegment :=
  { chunks := chunks
    duration_ms := (chunks.map AudioChunk.duration_ms).sum
    start_time := ((chunks.head?).map AudioChunk.timestamp).getD 0 }

/-- `SpeechSegment::sample_rate`: sample rate of the first chunk, 16000 for
an empty segment. -/
def SpeechSegment.sampleRate (s : SpeechSegment) : ℕ :=
  ((s.chunks.head?).map AudioChunk.sample_rate).getD 16000

/-- `SpeechSegment::is_empty`. -/
def SpeechSegment.isEmptySeg (s : SpeechSegment) : Bool :=
  s.chunks.isEmpty

/-- `VadProcessor` from src/vad/processor.rs, generic over the state type
`σ` of the boxed `VadDetector` it owns. -/
structure VadProcessor (σ : Type) where
  config : VadProcessorConfig
  detector : σ
  state : ProcessorState
  pre_roll_buffer : List AudioChunk
  speech_buffer : List AudioChunk
  max_pre_roll_chunks : ℕ
  deriving DecidableEq, Repr

/-- `VadProcessor::new`. -/
def VadProcessor.new (config : VadProcessorConfig) {σ : Type} (detector : σ) :
    VadProcessor σ :=
  { config := config
    detector := detector
    state := ProcessorState.Idle
    pre_roll_buffer := []
    speech_buffer := []
    max_pre_roll_chunks := 10 }

/-- The `while len > max { pop_front }` loop maintaining the pre-roll
buffer size: keep the most recent `m` entries. -/
def trimFront (m : ℕ) (l : List AudioChunk) : List AudioChunk :=
  l.drop (l.length - m)

/-- The lazy pre-roll capacity update at the top of `VadProcessor::process`
(src/vad/processor.rs lines 116-127): recompute only while the capacity
still holds its initial value 10, from the first non-empty chunk of
positive duration, as `pre_roll_ms / chunk_duration_ms + 1` in integer
arithmetic. -/
def computeMaxPreRoll {σ : Type} (p : VadProcessor σ) (chunk : AudioChunk) : ℕ :=
  if p.max_pre_roll_chunks = 10 ∧ chunk.is_empty = false ∧ 0 < chunk.duration_ms
  then p.config.pre_roll_ms / chunk.duration_ms + 1
  else p.max_pre_roll_chunks

/-- The state-machine body of `VadProcessor::process` (src/vad/processor.rs
lines 132-186), once the detector decision `decision` and the updated
detector state `d1` are known. -/
def processStep {σ : Type} (p : VadProcessor σ) (chunk : AudioChunk)
    (decision : VadDecision) (d1 : σ) : VadProcessor σ × Option SpeechSegment :=
  let m := computeMaxPreRoll p chunk
  match p.state with
  | ProcessorState.Idle =>
      let pr := trimFront m (p.pre_roll_buffer ++ [chunk])
      if decision = VadDecision.Speech then
        ({ p with
             detector := d1
             state := ProcessorState.InSpeech
             pre_roll_buffer := []
             speech_buffer := p.speech_buffer ++ pr ++ [chunk]
             max_pre_roll_chunks := m }, none)
      else
        ({ p with
             detector := d1
             pre_roll_buffer := pr
             max_pre_roll_chunks := m }, none)
  | ProcessorState.InSpeech =>
      let sb := p.speech_buffer ++ [chunk]
      if decision = VadDecision.Silence then
        ({ p with
             detector := d1
             state := ProcessorState.Idle
             pre_roll_buffer := []
             speech_buffer := []
             max_pre_roll_chunks := m }, some (SpeechSegment.new sb))
      else
        ({ p with
             detector := d1
             speech_buffer := sb
             max_pre_roll_chunks := m }, none)

/-- `VadProcessor::process`, generic over the behaviour
`det : σ → AudioChunk → Option (VadDecision × σ)` of the boxed detector
(`none` models a detector error or panic, which the `?` operator
propagates).  Returns the updated processor and the emitted segment, if
any. -/
def process {σ : Type} (det : σ → AudioChunk → Option (VadDecision × σ))
    (p : VadProcessor σ) (chunk : AudioChunk) :
    Option (VadProcessor σ × Option SpeechSegment) :=
  match det p.detector chunk with
  | none => none
  | some (decision, d1) => some (processStep p chunk decision d1)

/-- Feed a list of chunks through `VadProcessor::process`, collecting the
emitted segments in order; `none` when any step fails. -/
def processRun {σ : Type} (det : σ → AudioChunk → Option (VadDecision × σ)) :
    VadProcessor σ → List AudioChunk → Option (VadProcessor σ × List SpeechSegment)
  | p, [] => some (p, [])
  | p, c :: cs =>
      match process det p c with
      | none => none
      | some (p1, out) =>
          match processRun det p1 cs with
          | none => none
          | some (p2, segs) => some (p2, out.toList ++ segs)

/-! ## Audio capture (src/audio/capture.rs, src/audio.rs) -/

/-- `CaptureConfig` from src/audio/capture.rs. -/
structure CaptureConfig where
  device_name : List Char
  sample_rate : ℕ
  chunk_duration_ms : ℕ
  buffer_capacity_secs : ℕ
  deriving DecidableEq, Repr

/-- `CaptureConfig::validate`. -/
def CaptureConfig.validate (c : CaptureConfig) : Except (List Char) Unit :=
  if (c.sample_rate ∈ ([8000, 16000, 22050, 44100, 48000] : List ℕ)) = false then
    Except.error ("Unsupported sample rate".toList)
  else if (10 ≤ c.chunk_duration_ms ∧ c.chunk_duration_ms ≤ 1000) = false then
    Except.error ("chunk_duration_ms must be between 10 and 1000".toList)
  else if (1 ≤ c.buffer_capacity_secs ∧ c.buffer_capacity_secs ≤ 60) = false then
    Except.error ("buffer_capacity_secs must be between 1 and 60".toList)
  else Except.ok ()

/-- `chunk_size` as computed in `AudioCapture::start` (line 195):
`(sample_rate * chunk_duration_ms / 1000) as usize` in `u32` arithmetic
(no overflow in the validated range). -/
def chunk_size (c : CaptureConfig) : ℕ :=
  c.sample_rate * c.chunk_duration_ms / 1000

/-- `buffer_capacity` as computed in `AudioCapture::start` (lines 196-197):
`(sample_rate * buffer_capacity_secs) / chunk_size` in integer
arithmetic. -/
def buffer_capacity (c : CaptureConfig) : ℕ :=
  c.sample_rate * c.buffer_capacity_secs / chunk_size c

/-- Capacity, in chunks, of the mpsc chunk channel created by
`AudioCapture::start` (line 198): `buffer_capacity.max(10)`. -/
def channel_capacity (c : CaptureConfig) : ℕ :=
  max (buffer_capacity c) 10

/-- The channel capacity as the specification words it (section 4.1):
`max(10, ceil(sample_rate * buffer_seconds / chunk_samples))`.  Written
from the spec, for comparison with `channel_capacity`. -/
def specChannelCapacity (c : CaptureConfig) : ℕ :=
  max 10 ((c.sample_rate * c.buffer_capacity_secs + chunk_size c - 1) / chunk_size c)

/-- The pre-roll FIFO capacity as the specification words it (section 4.5):
`ceil(pre_roll_ms / chunk_ms)`.  Written from the spec, for comparison with
the capacity computed in `VadProcessor::process`. -/
def specPreRollCapacity (pre_roll_ms chunk_ms : ℕ) : ℕ :=
  (pre_roll_ms + chunk_ms - 1) / chunk_ms

/-- State of `AudioCapture` relevant to `stop`: the cpal stream handle and
the chunk sender are opaque resources (modelled as `Option Unit`), plus the
`is_running` flag.  The atomic flag is modelled as a plain field: `stop`
claims are about the single-threaded call sequence. -/
structure AudioCapture where
  config : CaptureConfig
  stream : Option Unit
  is_running : Bool
  chunk_tx : Option Unit
  deriving DecidableEq, Repr

/-- `AudioCapture::new`. -/
def AudioCapture.new (config : CaptureConfig) : AudioCapture :=
  { config := config, stream := none, is_running := false, chunk_tx := none }

/-- `AudioCapture::stop` (src/audio/capture.rs lines 375-395): early `Ok`
when not running; otherwise clear the running flag, take and drop the
stream (pausing it -- an external effect whose failure is only logged) and
drop the sender.  Always returns `Ok`. -/
def AudioCapture.stop (a : AudioCapture) : AudioCapture × Except (List Char) Unit :=
  if a.is_running = false then (a, Except.ok ())
  else ({ a with is_running := false, stream := none, chunk_tx := none },
        Except.ok ())

/-- `AudioEngine` from src/audio.rs: an optional owned capture. -/
structure AudioEngine where
  capture : Option AudioCapture
  deriving DecidableEq, Repr

/-- `AudioEngine::stop_capture`: take the capture out (if any) and stop
it, propagating its error. -/
def AudioEngine.stop_capture (e : AudioEngine) : AudioEngine × Except (List Char) Unit :=
  match e.capture with
  | none => (e, Except.ok ())
  | some c =>
      let r := (AudioCapture.stop c).2
      ({ capture := none }, r)

/-- The recording-indicator state set by `RecordingIndicator::recording`,
`processing` and `hide` (src/indicator.rs). -/
inductive IndicatorState where
  | recording
  | processing
  | hidden
  deriving DecidableEq, Repr

/-- State of `DictationEngine` relevant to `stop_dictation`
(src/daemon/dictation.rs): the dictating flag, the audio engine and the
indicator. -/
structure DictationEngine where
  is_dictating : Bool
  audio_engine : AudioEngine
  indicator : IndicatorState
  shutdown_signal : Bool
  deriving DecidableEq, Repr

/-- `DictationEngine::stop_dictation` (src/daemon/dictation.rs lines
371-385): early `Ok` without touching anything when not dictating;
otherwise clear the flag, switch the indicator to processing, and stop the
audio capture, propagating its error. -/
def DictationEngine.stop_dictation (e : DictationEngine) :
    DictationEngine × Except (List Char) Unit :=
  if e.is_dictating = false then (e, Except.ok ())
  else
    let e1 := { e with is_dictating := false, indicator := IndicatorState.processing }
    let (ae, r) := AudioEngine.stop_capture e1.audio_engine
    ({ e1 with audio_engine := ae }, r)

/-! ## Model runtimes (src/models/*.rs) -/

/-- `crate::Error` variants used by the model runtimes. -/
inductive CrateError where
  | Model (msg : List Char)
  | Audio (msg : List Char)
  | Config (msg : List Char)
  deriving DecidableEq, Repr

/-- `Transcription` from src/models/runtime.rs.  Wall-clock processing
time is an external measurement, carried opaquely. -/
structure Transcription where
  text : List Char
  language : Option (List Char)
  confidence : Option ℚ
  processing_time_ms : ℕ
  tokens : Option ℕ
  deriving DecidableEq, Repr

/-- Rust `str::trim` on a character list: remove leading whitespace, then
trailing whitespace. -/
def rustTrim (s : List Char) : List Char :=
  ((s.dropWhile Char.isWhitespace).reverse.dropWhile Char.isWhitespace).reverse

/-- A string equal to its own trim: no leading or trailing whitespace. -/
def IsTrimmed (s : List Char) : Prop :=
  rustTrim s = s

/-- Rust `str::split_whitespace` on a character list: maximal runs of
non-whitespace characters. -/
def splitWhitespaceL (s : List Char) : List (List Char) :=
  (s.splitOnP Char.isWhitespace).filter (fun w => w.isEmpty = false)

/-- The cleanup at the end of `SimpleTokenizer::decode`
(src/models/tokenizer.rs): split on whitespace, re-join with single
spaces, trim. -/
def cleanupText (s : List Char) : List Char :=
  rustTrim (List.intercalate [' '] (splitWhitespaceL s))

/-- `MockModel` state (src/models/mock.rs). -/
structure MockModel where
  is_loaded : Bool
  transcription_count : ℕ
  deriving DecidableEq, Repr

/-- `MockModel::transcribe` (src/models/mock.rs lines 46-77).  The only
check is `is_loaded`.  `fmt1` models the Rust float formatter for the
format specifier of one-decimal precision; `elapsed` models the measured
wall-clock time.  Division by a zero sample rate yields NaN text fragments
in Rust; the rational model uses division by zero equal to zero, which
affects only the formatted digits, never the `Ok`/`Err` outcome. -/
def MockModel.transcribe (fmt1 : ℚ → List Char) (elapsed : ℕ) (m : MockModel)
    (samples : List F32) (sample_rate : ℕ) : Except CrateError Transcription :=
  if m.is_loaded = false then Except.error (CrateError.Model "Model not loaded".toList)
  else
    let duration_secs : ℚ := (samples.length : ℚ) / (sample_rate : ℚ)
    let text : List Char :=
      if duration_secs < 1/2 then "[too short]".toList
      else if duration_secs < 2 then
        "[Mock transcription of ".toList ++ fmt1 duration_secs ++ "s audio]".toList
      else
        "[Mock transcription: This is a simulated transcription of ".toList ++
          fmt1 duration_secs ++ " seconds of audio.]".toList
    Except.ok
      { text := text
        language := some "en".toList
        confidence := some (95/100)
        processing_time_ms := elapsed
        tokens := some (duration_secs * 2).floor.toNat }

/-- `WhisperCppCli` state (src/models/whisper_cpp_cli.rs): the resolved
model path and the loaded flag (the binary path only matters to the
external process invocation). -/
structure WhisperCppCli where
  model_path : List Char
  loaded : Bool
  deriving DecidableEq, Repr

/-- `WhisperCppCli::validate_model_path`. -/
def validate_model_path (path : List Char) : Except CrateError Unit :=
  if (rustTrim path).isEmpty then
    Except.error (CrateError.Model "Model path cannot be empty".toList)
  else if path.any (fun c => c = Char.ofNat 0 ∨ c = Char.ofNat 10 ∨ c = Char.ofNat 13) then
    Except.error (CrateError.Model "Model path contains invalid control characters".toList)
  else Except.ok ()

/-- `WhisperCppCli::transcribe` (src/models/whisper_cpp_cli.rs lines
247-320).  It checks only that the model is loaded and that the model path
is valid: the `sample_rate` argument is ignored and empty input is not
rejected.  The temp-WAV write, the external `whisper-cli` run and the
output parse are external effects, modelled by `cliParsed`, the `Result`
of that pipeline carrying the text assembled by `parse_output`; on success
the text is trimmed before being returned. -/
def WhisperCppCli.transcribe (m : WhisperCppCli)
    (cliParsed : Except CrateError (List Char)) (elapsed : ℕ)
    (_samples : List F32) (_sample_rate : ℕ) : Except CrateError Transcription :=
  if m.loaded = false then
    Except.error (CrateError.Model "Model not loaded. Call load() first.".toList)
  else
    match validate_model_path m.model_path with
    | Except.error e => Except.error e
    | Except.ok _ =>
        match cliParsed with
        | Except.error e => Except.error e
        | Except.ok text =>
            Except.ok
              { text := rustTrim text
                language := some "en".toList
                confidence := none
                processing_time_ms := elapsed
                tokens := none }

/-- `WhisperCpp` state (src/models/whisper_cpp.rs, feature enabled): the
FFI context and the config are opaque optional resources. -/
structure WhisperCpp where
  ctx : Option Unit
  cfg : Option Unit
  deriving DecidableEq, Repr

/-- `WhisperCpp::transcribe` (src/models/whisper_cpp.rs lines 135-219,
feature enabled): requires the context and config to be present and the
sample rate to equal 16000; the FFI transcription run is external,
modelled by `ffiText`, the `Result` carrying the concatenated segment
text; on success the text is trimmed.  `num_segments` is the external
segment count. -/
def WhisperCpp.transcribe (m : WhisperCpp)
    (ffiText : Except CrateError (List Char)) (num_segments elapsed : ℕ)
    (_samples : List F32) (sample_rate : ℕ) : Except CrateError Transcription :=
  match m.ctx with
  | none => Except.error (CrateError.Model "Model not loaded".toList)
  | some _ =>
      match m.cfg with
      | none => Except.error (CrateError.Model "Config not set".toList)
      | some _ =>
          if sample_rate ≠ 16000 then
            Except.error
              (CrateError.Model "Sample rate must be 16kHz. Please resample audio.".toList)
          else
            match ffiText with
            | Except.error e => Except.error e
            | Except.ok full_text =>
                Except.ok
                  { text := rustTrim full_text
                    language := none
                    confidence := none
                    processing_time_ms := elapsed
                    tokens := some num_segments }

/-- `WhisperOnnx` state (src/models/whisper_onnx.rs, feature enabled):
encoder and decoder sessions are opaque optional resources. -/
structure WhisperOnnx where
  encoder : Option Unit
  decoder : Option Unit
  deriving DecidableEq, Repr

/-- `WhisperOnnx::tokens_to_text` composed with `SimpleTokenizer::decode`:
empty token list gives the empty string, otherwise the decode produces a
raw concatenation of vocabulary entries (external data, modelled by `raw`)
which is whitespace-normalised and trimmed by `cleanupText`. -/
def tokens_to_text (tokens : List ℤ) (raw : List Char) : List Char :=
  if tokens.isEmpty then [] else cleanupText raw

/-- `WhisperOnnx::transcribe` (src/models/whisper_onnx.rs lines 611-670,
feature enabled): the only check is `is_loaded` (both sessions present).
The mel/encode/decode pipeline is external, modelled by `decoded`, the
`Result` carrying the generated token ids together with the raw
concatenated vocabulary text they decode to; the returned text is that of
`tokens_to_text`. -/
def WhisperOnnx.transcribe (m : WhisperOnnx)
    (decoded : Except CrateError (List ℤ × List Char)) (elapsed : ℕ)
    (_samples : List F32) (_sample_rate : ℕ) : Except CrateError Transcription :=
  if (m.encoder.isSome && m.decoder.isSome) = false then
    Except.error (CrateError.Model "Model not loaded".toList)
  else
    match decoded with
    | Except.error e => Except.error e
    | Except.ok td =>
        Except.ok
          { text := tokens_to_text td.1 td.2
            language := some "en".toList
            confidence := some (95/100)
            processing_time_ms := elapsed
            tokens := some td.1.length }

/-- `OnnxRuntime` state (src/models/onnx_runtime.rs, feature enabled):
encoder session and vocabulary are opaque optional resources. -/
structure OnnxRuntime where
  encoder_session : Option Unit
  vocab : Option Unit
  deriving DecidableEq, Repr

/-- The distinct sample-rate error message built by
`OnnxRuntime::transcribe` for a rejected rate. -/
def onnxRateMsg (sample_rate : ℕ) : List Char :=
  "Sample rate must be 16kHz, got ".toList ++ (toString sample_rate).toList ++
    "Hz. Please resample audio.".toList

/-- `OnnxRuntime::transcribe` (src/models/onnx_runtime.rs lines 511-845,
feature enabled): rejects an unloaded model, a sample rate other than
16000 (with a distinct error message) and empty input, in that order.  The
inference and CTC decoding are external, modelled by `ctcRaw`, the
`Result` carrying the decoded token count and the text assembled by
`decode_ctc_tokens` before its final trim; on success the returned text is
that assembly trimmed. -/
def OnnxRuntime.transcribe (m : OnnxRuntime)
    (ctcRaw : Except CrateError (ℕ × List Char)) (elapsed : ℕ)
    (samples : List F32) (sample_rate : ℕ) : Except CrateError Transcription :=
  if (m.encoder_session.isSome && m.vocab.isSome) = false then
    Except.error (CrateError.Model "Model not loaded".toList)
  else if sample_rate ≠ 16000 then
    Except.error (CrateError.Model (onnxRateMsg sample_rate))
  else if samples.isEmpty then
    Except.error (CrateError.Model "No audio samples provided".toList)
  else
    match ctcRaw with
    | Except.error e => Except.error e
    | Except.ok tr =>
        Except.ok
          { text := rustTrim tr.2
            language := none
            confidence := none
            processing_time_ms := elapsed
            tokens := some tr.1 }

/-- `WhisperCandle::transcribe` (src/models/whisper_candle.rs): the
backend is unimplemented and always errors. -/
def whisperCandleTranscribe (_samples : List F32) (_sample_rate : ℕ) :
    Except CrateError Transcription :=
  Except.error (CrateError.Model "Candle backend not yet implemented".toList)

/-- `WhisperCpp::transcribe` with the whisper-cpp feature disabled
(src/models/whisper_cpp.rs lines 279-284): always errors. -/
def whisperCppDisabledTranscribe (_samples : List F32) (_sample_rate : ℕ) :
    Except CrateError Transcription :=
  Except.error (CrateError.Model "whisper-cpp feature not enabled".toList)

/-- `OnnxRuntime::transcribe` with the onnx feature disabled
(src/models/onnx_runtime.rs lines 909-916): always errors. -/
def onnxDisabledTranscribe (_samples : List F32) (_sample_rate : ℕ) :
    Except CrateError Transcription :=
  Except.error (CrateError.Model "ONNX feature not enabled".toList)

/-! ## General helper lemmas -/

/-- The head of a `dropWhile` result does not satisfy the predicate. -/
lemma head?_dropWhile_false (p : Char → Bool) (l : List Char) (c : Char)
    (h : (l.dropWhile p).head? = some c) : p c = false := by
  have hm := List.head?_dropWhile_not p l
  rw [h] at hm
  exact hm

/-- If the first element of a list fails the predicate, `dropWhile` leaves
the list unchanged. -/
lemma dropWhile_of_head_not (p : Char → Bool) (l : List Char)
    (h : ∀ c, l.head? = some c → p c = false) : l.dropWhile p = l := by
  cases l with
  | nil => rfl
  | cons x xs =>
      have := h x rfl
      simp [List.dropWhile_cons, this]

/-- A list whose first and last characters are not whitespace is fixed by
`rustTrim`. -/
lemma trim_eq_self_of_ends (l : List Char)
    (h1 : ∀ c, l.head? = some c → c.isWhitespace = false)
    (h2 : ∀ c, l.getLast? = some c → c.isWhitespace = false) :
    rustTrim l = l := by
  unfold rustTrim
  rw [dropWhile_of_head_not _ _ h1]
  rw [dropWhile_of_head_not _ _ (fun c hc => h2 c (by rwa [List.head?_reverse] at hc))]
  exact List.reverse_reverse l

/-- Heads of prefixes agree. -/
lemma head?_of_isPrefix (l₁ l₂ : List Char) (c : Char) (h : l₁ <+: l₂)
    (hc : l₁.head? = some c) : l₂.head? = some c := by
  obtain ⟨t, rfl⟩ := h
  cases l₁ with
  | nil => simp at hc
  | cons x xs => simpa using hc

/-- `rustTrim` is idempotent, so trimmed output has no leading or trailing
whitespace. -/
lemma rustTrim_isTrimmed (s : List Char) : IsTrimmed (rustTrim s) := by
  unfold IsTrimmed
  apply trim_eq_self_of_ends
  · intro c hc
    unfold rustTrim at hc
    set u := s.dropWhile Char.isWhitespace with hu
    have hpre : (u.reverse.dropWhile Char.isWhitespace).reverse <+: u := by
      have hs : u.reverse.dropWhile Char.isWhitespace <:+ u.reverse :=
        List.dropWhile_suffix _
      have := List.reverse_prefix.mpr hs
      rwa [List.reverse_reverse] at this
    have hhead := head?_of_isPrefix _ _ c hpre hc
    exact head?_dropWhile_false _ s c hhead
  · intro c hc
    unfold rustTrim at hc
    rw [List.getLast?_reverse] at hc
    exact head?_dropWhile_false _ _ c hc

/-- A list that starts with a non-whitespace character and ends with a
non-whitespace character is trimmed. -/
lemma isTrimmed_of_ends (a b : Char) (mid : List Char)
    (ha : a.isWhitespace = false) (hb : b.isWhitespace = false) :
    IsTrimmed (a :: (mid ++ [b])) := by
  unfold IsTrimmed rustTrim
  rw [List.dropWhile_cons_of_neg (by simp [ha])]
  rw [show (a :: (mid ++ [b])).reverse = b :: (mid.reverse ++ [a]) by simp]
  rw [List.dropWhile_cons_of_neg (by simp [hb])]
  simp

/-! ## C5: chunk channel capacity (src/audio/capture.rs lines 192-198) -/

/-- C5 (amended): for every valid `CaptureConfig` the chunk channel created
by `AudioCapture::start` has capacity `max(10, floor(sample_rate *
buffer_capacity_secs / chunk_samples))` -- integer (floor) division, not
the ceiling the specification states. -/
theorem claim5_channel_capacity (c : CaptureConfig)
    (_hv : CaptureConfig.validate c = Except.ok ()) :
    channel_capacity c =
      max 10 (c.sample_rate * c.buffer_capacity_secs / chunk_size c) := by
  unfold channel_capacity buffer_capacity
  exact Nat.max_comm _ _

/-- Witness for C5 at the default capture configuration. -/
theorem claim5_witness :
    CaptureConfig.validate
        { device_name := "default".toList, sample_rate := 16000,
          chunk_duration_ms := 200, buffer_capacity_secs := 2 } = Except.ok () ∧
    channel_capacity
        { device_name := "default".toList, sample_rate := 16000,
          chunk_duration_ms := 200, buffer_capacity_secs := 2 } =
      max 10 (16000 * 2 / chunk_size
        { device_name := "default".toList, sample_rate := 16000,
          chunk_duration_ms := 200, buffer_capacity_secs := 2 }) :=
  ⟨by rfl, claim5_channel_capacity _ (by rfl)⟩

/-- A valid configuration on which the code capacity (floor) differs from
the specified ceiling capacity: 16 kHz, 30 ms chunks, 1 s of buffer. -/
def capCfg30 : CaptureConfig :=
  { device_name := "default".toList
    sample_rate := 16000
    chunk_duration_ms := 30
    buffer_capacity_secs := 1 }

/-- Counterexample for C5 as stated: on the valid configuration `capCfg30`
the code computes `16000 / 480 = 33` chunks while the claimed formula
`max(10, ceil(16000 / 480))` gives 34. -/
theorem claim5_counterexample :
    CaptureConfig.validate capCfg30 = Except.ok () ∧
    channel_capacity capCfg30 = 33 ∧
    specChannelCapacity capCfg30 = 34 ∧
    channel_capacity capCfg30 ≠ specChannelCapacity capCfg30 := by
  refine ⟨by rfl, by decide, by decide, by decide⟩

/-! ## C8: stop is idempotent (src/audio/capture.rs, src/daemon/dictation.rs) -/

/-- C8: `AudioCapture::stop` on a non-running capture returns success and
changes nothing; calling `stop` twice leaves the same state as calling it
once (and both calls succeed); `DictationEngine::stop_dictation` when not
dictating returns success and leaves the engine unchanged. -/
theorem claim8_stop_idempotent :
    (∀ a : AudioCapture, a.is_running = false →
        AudioCapture.stop a = (a, Except.ok ())) ∧
    (∀ a : AudioCapture,
        (AudioCapture.stop a).2 = Except.ok () ∧
        AudioCapture.stop (AudioCapture.stop a).1 =
          ((AudioCapture.stop a).1, Except.ok ())) ∧
    (∀ e : DictationEngine, e.is_dictating = false →
        DictationEngine.stop_dictation e = (e, Except.ok ())) := by
  refine ⟨?_, ?_, ?_⟩
  · intro a h
    simp [AudioCapture.stop, h]
  · intro a
    by_cases h : a.is_running = false
    · simp [AudioCapture.stop, h]
    · simp [AudioCapture.stop, h]
  · intro e h
    simp [DictationEngine.stop_dictation, h]

/-- Witness for C8: a freshly created capture and an idle engine. -/
theorem claim8_witness :
    AudioCapture.stop (AudioCapture.new capCfg30) =
      (AudioCapture.new capCfg30, Except.ok ()) ∧
    DictationEngine.stop_dictation
        { is_dictating := false, audio_engine := { capture := none },
          indicator := IndicatorState.hidden, shutdown_signal := false } =
      ({ is_dictating := false, audio_engine := { capture := none },
         indicator := IndicatorState.hidden, shutdown_signal := false },
       Except.ok ()) :=
  ⟨claim8_stop_idempotent.1 _ (by decide),
   claim8_stop_idempotent.2.2 _ (by decide)⟩

/-! ## C3: transcribe input validation (src/models/*.rs) -/

/-- The sample-rate rejection message of `OnnxRuntime::transcribe` differs
from the not-loaded message, making the two errors distinct. -/
lemma onnxRateMsg_ne (r : ℕ) : onnxRateMsg r ≠ "Model not loaded".toList := by
  intro h
  have htake := congrArg (fun l => l.take 1) h
  simp only [onnxRateMsg, List.append_assoc] at htake
  rw [List.take_append_of_le_length (by decide)] at htake
  revert htake
  decide

/-- C3 (amended): every variant rejects transcription when the model is not
loaded.  Only `OnnxRuntime::transcribe` additionally rejects a sample rate
other than 16 kHz (with a distinct error) and empty input;
`WhisperCpp::transcribe` rejects a non-16 kHz rate but not empty input;
`MockModel::transcribe` and `WhisperCppCli::transcribe` perform neither
input check -- in particular a loaded mock model returns a `Transcription`
for empty input at any sample rate. -/
theorem claim3_transcribe_validation :
    (∀ (fmt1 : ℚ → List Char) (el : ℕ) (m : MockModel) (samples : List F32) (r : ℕ),
        m.is_loaded = false →
        MockModel.transcribe fmt1 el m samples r =
          Except.error (CrateError.Model "Model not loaded".toList)) ∧
    (∀ (m : WhisperCppCli) (cli : Except CrateError (List Char)) (el : ℕ)
        (samples : List F32) (r : ℕ), m.loaded = false →
        WhisperCppCli.transcribe m cli el samples r =
          Except.error (CrateError.Model "Model not loaded. Call load() first.".toList)) ∧
    (∀ (m : OnnxRuntime) (d : Except CrateError (ℕ × List Char)) (el : ℕ)
        (samples : List F32) (r : ℕ),
        (m.encoder_session.isSome && m.vocab.isSome) = false →
        OnnxRuntime.transcribe m d el samples r =
          Except.error (CrateError.Model "Model not loaded".toList)) ∧
    (∀ (m : OnnxRuntime) (d : Except CrateError (ℕ × List Char)) (el : ℕ)
        (samples : List F32) (r : ℕ),
        (m.encoder_session.isSome && m.vocab.isSome) = true → r ≠ 16000 →
        OnnxRuntime.transcribe m d el samples r =
          Except.error (CrateError.Model (onnxRateMsg r)) ∧
        onnxRateMsg r ≠ "Model not loaded".toList) ∧
    (∀ (m : OnnxRuntime) (d : Except CrateError (ℕ × List Char)) (el : ℕ),
        (m.encoder_session.isSome && m.vocab.isSome) = true →
        OnnxRuntime.transcribe m d el [] 16000 =
          Except.error (CrateError.Model "No audio samples provided".toList)) ∧
    (∀ (m : WhisperCpp) (ffi : Except CrateError (List Char)) (ns el : ℕ)
        (samples : List F32) (r : ℕ), m.ctx.isSome = true →
        m.cfg.isSome = true → r ≠ 16000 →
        WhisperCpp.transcribe m ffi ns el samples r =
          Except.error
            (CrateError.Model "Sample rate must be 16kHz. Please resample audio.".toList)) ∧
    (∀ (fmt1 : ℚ → List Char) (el : ℕ) (m : MockModel) (r : ℕ), m.is_loaded = true →
        (MockModel.transcribe fmt1 el m [] r).isOk = true) := by
  refine ⟨?_, ?_, ?_, ?_, ?_, ?_, ?_⟩
  · intro fmt1 el m samples r h
    simp [MockModel.transcribe, h]
  · intro m cli el samples r h
    simp [WhisperCppCli.transcribe, h]
  · intro m d el samples r h
    simp [OnnxRuntime.transcribe, h]
  · intro m d el samples r h hr
    exact ⟨by simp [OnnxRuntime.transcribe, h, hr], onnxRateMsg_ne r⟩
  · intro m d el h
    simp [OnnxRuntime.transcribe, h]
  · intro m ffi ns el samples r hctx hcfg hr
    obtain ⟨x, hx⟩ := Option.isSome_iff_exists.mp hctx
    obtain ⟨y, hy⟩ := Option.isSome_iff_exists.mp hcfg
    simp [WhisperCpp.transcribe, hx, hy, hr]
  · intro fmt1 el m r h
    have hlt : ((([] : List F32).length : ℚ) / (r : ℚ)) < 1/2 := by
      norm_num
    simp [MockModel.transcribe, h, hlt, Except.isOk, Except.toBool]

/-- Witness for C3: concrete unloaded and loaded models exercising each
validated branch. -/
theorem claim3_witness :
    MockModel.transcribe (fun _ => []) 0 { is_loaded := false, transcription_count := 0 }
        [] 16000 = Except.error (CrateError.Model "Model not loaded".toList) ∧
    OnnxRuntime.transcribe { encoder_session := some (), vocab := some () }
        (Except.ok (0, [])) 0 [some 0] 8000 =
      Except.error (CrateError.Model (onnxRateMsg 8000)) ∧
    OnnxRuntime.transcribe { encoder_session := some (), vocab := some () }
        (Except.ok (0, [])) 0 [] 16000 =
      Except.error (CrateError.Model "No audio samples provided".toList) :=
  ⟨claim3_transcribe_validation.1 (fun _ => []) 0
      { is_loaded := false, transcription_count := 0 } [] 16000 rfl,
   (claim3_transcribe_validation.2.2.2.1
      { encoder_session := some (), vocab := some () }
      (Except.ok (0, [])) 0 [some 0] 8000 rfl (by decide)).1,
   claim3_transcribe_validation.2.2.2.2.1
      { encoder_session := some (), vocab := some () }
      (Except.ok (0, [])) 0 rfl⟩

/-- Counterexample for C3 as stated: a loaded `MockModel` accepts empty
input at a non-16 kHz rate and returns a `Transcription` instead of an
error, and a loaded `WhisperCppCli` (whose external run succeeds) does the
same -- so it is not true that every model runtime variant rejects empty
input and non-16 kHz rates. -/
theorem claim3_counterexample :
    (MockModel.transcribe (fun _ => []) 0 { is_loaded := true, transcription_count := 0 }
        [] 8000).isOk = true ∧
    (WhisperCppCli.transcribe { model_path := "m.bin".toList, loaded := true }
        (Except.ok "hello".toList) 0 [] 8000).isOk = true := by
  refine ⟨by decide, by decide⟩

/-! ## C7: transcription text is trimmed (src/models/*.rs) -/

/-- The mid-length mock transcription text is bracket-delimited, hence
trimmed, whatever the formatted duration is. -/
lemma isTrimmed_mock2 (f : List Char) :
    IsTrimmed ("[Mock transcription of ".toList ++ f ++ "s audio]".toList) := by
  have h1 : "[Mock transcription of ".toList =
      '[' :: "Mock transcription of ".toList := by decide
  have h2 : "s audio]".toList = "s audio".toList ++ [']'] := by decide
  rw [h1, h2]
  have h3 := isTrimmed_of_ends '[' ']'
      ("Mock transcription of ".toList ++ f ++ "s audio".toList) (by decide) (by decide)
  simpa [List.append_assoc] using h3

/-- The long mock transcription text is bracket-delimited, hence trimmed. -/
lemma isTrimmed_mock3 (f : List Char) :
    IsTrimmed ("[Mock transcription: This is a simulated transcription of ".toList ++
      f ++ " seconds of audio.]".toList) := by
  have h1 : "[Mock transcription: This is a simulated transcription of ".toList =
      '[' :: "Mock transcription: This is a simulated transcription of ".toList := by decide
  have h2 : " seconds of audio.]".toList = " seconds of audio.".toList ++ [']'] := by decide
  rw [h1, h2]
  have h3 := isTrimmed_of_ends '[' ']'
      ("Mock transcription: This is a simulated transcription of ".toList ++ f ++
        " seconds of audio.".toList) (by decide) (by decide)
  simpa [List.append_assoc] using h3

/-- `tokens_to_text` output is always trimmed. -/
lemma isTrimmed_tokens_to_text (t : List ℤ) (raw : List Char) :
    IsTrimmed (tokens_to_text t raw) := by
  unfold tokens_to_text
  split
  · unfold IsTrimmed
    decide
  · unfold cleanupText
    exact rustTrim_isTrimmed _

/-- C7: for every model runtime variant, a successful `transcribe` returns
text with no leading or trailing whitespace (the text equals its own
trim). -/
theorem claim7_text_trimmed :
    (∀ (fmt1 : ℚ → List Char) (el : ℕ) (m : MockModel) (samples : List F32) (r : ℕ)
        (tr : Transcription), MockModel.transcribe fmt1 el m samples r = Except.ok tr →
        IsTrimmed tr.text) ∧
    (∀ (m : WhisperCppCli) (cli : Except CrateError (List Char)) (el : ℕ)
        (samples : List F32) (r : ℕ) (tr : Transcription),
        WhisperCppCli.transcribe m cli el samples r = Except.ok tr → IsTrimmed tr.text) ∧
    (∀ (m : WhisperCpp) (ffi : Except CrateError (List Char)) (ns el : ℕ)
        (samples : List F32) (r : ℕ) (tr : Transcription),
        WhisperCpp.transcribe m ffi ns el samples r = Except.ok tr → IsTrimmed tr.text) ∧
    (∀ (m : WhisperOnnx) (d : Except CrateError (List ℤ × List Char)) (el : ℕ)
        (samples : List F32) (r : ℕ) (tr : Transcription),
        WhisperOnnx.transcribe m d el samples r = Except.ok tr → IsTrimmed tr.text) ∧
    (∀ (m : OnnxRuntime) (d : Except CrateError (ℕ × List Char)) (el : ℕ)
        (samples : List F32) (r : ℕ) (tr : Transcription),
        OnnxRuntime.transcribe m d el samples r = Except.ok tr → IsTrimmed tr.text) ∧
    (∀ (samples : List F32) (r : ℕ) (tr : Transcription),
        whisperCandleTranscribe samples r = Except.ok tr → IsTrimmed tr.text) ∧
    (∀ (samples : List F32) (r : ℕ) (tr : Transcription),
        whisperCppDisabledTranscribe samples r = Except.ok tr → IsTrimmed tr.text) ∧
    (∀ (samples : List F32) (r : ℕ) (tr : Transcription),
        onnxDisabledTranscribe samples r = Except.ok tr → IsTrimmed tr.text) := by
  refine ⟨?_, ?_, ?_, ?_, ?_, ?_, ?_, ?_⟩
  · intro fmt1 el m samples r tr h
    unfold MockModel.transcribe at h
    split at h
    · simp at h
    · dsimp only at h
      split at h
      · simp only [Except.ok.injEq] at h
        subst h
        show IsTrimmed "[too short]".toList
        unfold IsTrimmed
        decide
      · split at h
        · simp only [Except.ok.injEq] at h
          subst h
          exact isTrimmed_mock2 _
        · simp only [Except.ok.injEq] at h
          subst h
          exact isTrimmed_mock3 _
  · intro m cli el samples r tr h
    unfold WhisperCppCli.transcribe at h
    split at h
    · simp at h
    · split at h
      · simp at h
      · split at h
        · simp at h
        · simp only [Except.ok.injEq] at h
          subst h
          exact rustTrim_isTrimmed _
  · intro m ffi ns el samples r tr h
    unfold WhisperCpp.transcribe at h
    split at h
    · simp at h
    · split at h
      · simp at h
      · split at h
        · simp at h
        · split at h
          · simp at h
          · simp only [Except.ok.injEq] at h
            subst h
            exact rustTrim_isTrimmed _
  · intro m d el samples r tr h
    unfold WhisperOnnx.transcribe at h
    split at h
    · simp at h
    · split at h
      · simp at h
      · simp only [Except.ok.injEq] at h
        subst h
        exact isTrimmed_tokens_to_text _ _
  · intro m d el samples r tr h
    unfold OnnxRuntime.transcribe at h
    split at h
    · simp at h
    · split at h
      · simp at h
      · split at h
        · simp at h
        · split at h
          · simp at h
          · simp only [Except.ok.injEq] at h
            subst h
            exact rustTrim_isTrimmed _
  · intro samples r tr h
    simp [whisperCandleTranscribe] at h
  · intro samples r tr h
    simp [whisperCppDisabledTranscribe] at h
  · intro samples r tr h
    simp [onnxDisabledTranscribe] at h

/-- Witness for C7: the external-CLI variant on a raw output with
surrounding whitespace. -/
theorem claim7_witness :
    IsTrimmed (Transcription.text
      { text := rustTrim "  hi  ".toList, language := some "en".toList,
        confidence := none, processing_time_ms := 0, tokens := none }) :=
  claim7_text_trimmed.2.1 { model_path := "m.bin".toList, loaded := true }
    (Except.ok "  hi  ".toList) 0 [some 0] 16000 _ (by rfl)

/-! ## VAD processor run invariant (C1, C4, C9) -/

/-- The pre-roll trim keeps at most `m` chunks. -/
lemma trimFront_length_le (m : ℕ) (l : List AudioChunk) :
    (trimFront m l).length ≤ m := by
  unfold trimFront
  rw [List.length_drop]
  omega

/-- Trimming a dropped suffix is again a dropped suffix. -/
lemma trimFront_drop (m d : ℕ) (l : List AudioChunk) (_h : d ≤ l.length) :
    trimFront m (l.drop d) = l.drop (max d (l.length - m)) := by
  unfold trimFront
  rw [List.length_drop, List.drop_drop]
  congr 1
  omega

/-- The recomputed pre-roll capacity is always at least 1 when the previous
capacity was. -/
lemma computeMaxPreRoll_pos {σ : Type} (p : VadProcessor σ) (c : AudioChunk)
    (h : 1 ≤ p.max_pre_roll_chunks) : 1 ≤ computeMaxPreRoll p c := by
  unfold computeMaxPreRoll
  split
  · exact Nat.succ_le_succ (Nat.zero_le _)
  · exact h

/-- Run invariant of `VadProcessor::process`, relative to the list `hist`
of chunks consumed since the previous emission (or since creation/reset):
the capacity is positive, the pre-roll FIFO respects it, in `Idle` the
speech buffer is empty and the pre-roll FIFO is exactly a suffix of the
consumed history, and in `InSpeech` the pre-roll FIFO is empty while the
speech buffer consists of a retained pre-roll suffix ending in the opening
speech chunk `t`, a second copy of `t`, and everything consumed after
`t`. -/
def ProcInv {σ : Type} (hist : List AudioChunk) (p : VadProcessor σ) : Prop :=
  1 ≤ p.max_pre_roll_chunks ∧
  p.pre_roll_buffer.length ≤ p.max_pre_roll_chunks ∧
  (p.state = ProcessorState.Idle →
      p.speech_buffer = [] ∧ ∃ d, d ≤ hist.length ∧ p.pre_roll_buffer = hist.drop d) ∧
  (p.state = ProcessorState.InSpeech →
      p.pre_roll_buffer = [] ∧
      ∃ d pre t post, hist = pre ++ t :: post ∧ d ≤ pre.length ∧
        p.speech_buffer = (pre ++ [t]).drop d ++ t :: post)

/-- A freshly created processor satisfies the invariant with empty
history. -/
lemma ProcInv_new {σ : Type} (cfg : VadProcessorConfig) (d0 : σ) :
    ProcInv [] (VadProcessor.new cfg d0) := by
  refine ⟨by simp [VadProcessor.new], by simp [VadProcessor.new], ?_, ?_⟩
  · intro _
    exact ⟨rfl, 0, by simp [VadProcessor.new]⟩
  · intro h
    simp [VadProcessor.new] at h

/-- `processStep` in state `Idle` on a `Speech` decision: drain the trimmed
pre-roll into the speech buffer, append the chunk again, go to
`InSpeech`. -/
lemma processStep_idle_speech {σ : Type} (p : VadProcessor σ) (c : AudioChunk) (d1 : σ)
    (h : p.state = ProcessorState.Idle) :
    processStep p c VadDecision.Speech d1 =
      ({ p with
           detector := d1
           state := ProcessorState.InSpeech
           pre_roll_buffer := []
           speech_buffer := p.speech_buffer ++
             trimFront (computeMaxPreRoll p c) (p.pre_roll_buffer ++ [c]) ++ [c]
           max_pre_roll_chunks := computeMaxPreRoll p c }, none) := by
  unfold processStep
  rw [h]
  simp

/-- `processStep` in state `Idle` on a `Silence` decision: keep the trimmed
pre-roll. -/
lemma processStep_idle_silence {σ : Type} (p : VadProcessor σ) (c : AudioChunk) (d1 : σ)
    (h : p.state = ProcessorState.Idle) :
    processStep p c VadDecision.Silence d1 =
      ({ p with
           detector := d1
           pre_roll_buffer := trimFront (computeMaxPreRoll p c) (p.pre_roll_buffer ++ [c])
           max_pre_roll_chunks := computeMaxPreRoll p c }, none) := by
  unfold processStep
  rw [h]
  simp

/-- `processStep` in state `InSpeech` on a `Speech` decision: append the
chunk. -/
lemma processStep_inSpeech_speech {σ : Type} (p : VadProcessor σ) (c : AudioChunk) (d1 : σ)
    (h : p.state = ProcessorState.InSpeech) :
    processStep p c VadDecision.Speech d1 =
      ({ p with
           detector := d1
           speech_buffer := p.speech_buffer ++ [c]
           max_pre_roll_chunks := computeMaxPreRoll p c }, none) := by
  unfold processStep
  rw [h]
  simp

/-- `processStep` in state `InSpeech` on a `Silence` decision: emit the
segment and reset the buffers. -/
lemma processStep_inSpeech_silence {σ : Type} (p : VadProcessor σ) (c : AudioChunk) (d1 : σ)
    (h : p.state = ProcessorState.InSpeech) :
    processStep p c VadDecision.Silence d1 =
      ({ p with
           detector := d1
           state := ProcessorState.Idle
           pre_roll_buffer := []
           speech_buffer := []
           max_pre_roll_chunks := computeMaxPreRoll p c },
       some (SpeechSegment.new (p.speech_buffer ++ [c]))) := by
  unfold processStep
  rw [h]
  simp

/-- `processStep` always stores the recomputed capacity. -/
lemma processStep_max {σ : Type} (p : VadProcessor σ) (c : AudioChunk)
    (dec : VadDecision) (d1 : σ) :
    (processStep p c dec d1).1.max_pre_roll_chunks = computeMaxPreRoll p c := by
  cases hs : p.state <;> cases dec
  · rw [processStep_idle_speech p c d1 hs]
  · rw [processStep_idle_silence p c d1 hs]
  · rw [processStep_inSpeech_speech p c d1 hs]
  · rw [processStep_inSpeech_silence p c d1 hs]

/-- One-step preservation of the run invariant, together with the shape of
an emitted segment: either nothing is emitted and the invariant advances by
the consumed chunk, or the emitted segment is `SpeechSegment.new` of its
chunk list and its chunk multiset is the consumed history minus an evicted
prefix plus one extra copy of the opening chunk `t`. -/
lemma processStep_inv {σ : Type} (p : VadProcessor σ) (c : AudioChunk)
    (dec : VadDecision) (d1 : σ) (hist : List AudioChunk) (hinv : ProcInv hist p) :
    ((processStep p c dec d1).2 = none ∧
      ProcInv (hist ++ [c]) (processStep p c dec d1).1) ∨
    (∃ seg, (processStep p c dec d1).2 = some seg ∧
      ProcInv [] (processStep p c dec d1).1 ∧
      seg = SpeechSegment.new seg.chunks ∧
      ∃ d t, d < (hist ++ [c]).length ∧ t ∈ (hist ++ [c]).drop d ∧
        (seg.chunks : Multiset AudioChunk) =
          ((hist ++ [c]).drop d : Multiset AudioChunk) + {t}) := by
  obtain ⟨hmax1, _hlen, hidle, hspeech⟩ := hinv
  have hm1 : 1 ≤ computeMaxPreRoll p c := computeMaxPreRoll_pos p c hmax1
  cases hstate : p.state with
  | Idle =>
      obtain ⟨hsb, d, hd, hpr⟩ := hidle hstate
      have hdrop : p.pre_roll_buffer ++ [c] = (hist ++ [c]).drop d := by
        rw [hpr, List.drop_append_of_le_length hd]
      have htrim : trimFront (computeMaxPreRoll p c) (p.pre_roll_buffer ++ [c]) =
          (hist ++ [c]).drop (max d ((hist ++ [c]).length - computeMaxPreRoll p c)) := by
        rw [hdrop]
        refine trimFront_drop _ _ _ ?_
        simp only [List.length_append, List.length_cons, List.length_nil]
        omega
      have hd'le : max d ((hist ++ [c]).length - computeMaxPreRoll p c) ≤ hist.length := by
        apply max_le hd
        simp only [List.length_append, List.length_cons, List.length_nil]
        omega
      left
      cases dec with
      | Speech =>
          rw [processStep_idle_speech p c d1 hstate]
          refine ⟨rfl, hm1, by simp, ?_, ?_⟩
          · intro hcontra
            simp at hcontra
          · intro _
            refine ⟨rfl, max d ((hist ++ [c]).length - computeMaxPreRoll p c),
              hist, c, [], by simp, hd'le, ?_⟩
            simp only [hsb, htrim, List.nil_append, List.append_nil]
      | Silence =>
          rw [processStep_idle_silence p c d1 hstate]
          refine ⟨rfl, hm1, ?_, ?_, ?_⟩
          · exact trimFront_length_le _ _
          · intro _
            refine ⟨hsb, max d ((hist ++ [c]).length - computeMaxPreRoll p c), ?_, htrim⟩
            simp only [List.length_append, List.length_cons, List.length_nil]
            omega
          · intro hcontra
            have hx : p.state = ProcessorState.InSpeech := hcontra
            rw [hstate] at hx
            simp at hx
  | InSpeech =>
      obtain ⟨hpr, d, pre, t, post, hhist, hdpre, hsb⟩ := hspeech hstate
      cases dec with
      | Speech =>
          left
          rw [processStep_inSpeech_speech p c d1 hstate]
          refine ⟨rfl, hm1, by simp [hpr], ?_, ?_⟩
          · intro hcontra
            have hx : p.state = ProcessorState.Idle := hcontra
            rw [hstate] at hx
            simp at hx
          · intro _
            refine ⟨hpr, d, pre, t, post ++ [c], by rw [hhist]; simp, hdpre, ?_⟩
            rw [hsb]
            simp
      | Silence =>
          right
          rw [processStep_inSpeech_silence p c d1 hstate]
          refine ⟨SpeechSegment.new (p.speech_buffer ++ [c]), rfl, ?_, rfl, ?_⟩
          · refine ⟨hm1, by simp, ?_, ?_⟩
            · intro _
              exact ⟨rfl, 0, by simp⟩
            · intro hcontra
              simp at hcontra
          · have h2 : (hist ++ [c]).drop d = pre.drop d ++ (t :: (post ++ [c])) := by
              rw [hhist]
              rw [show (pre ++ t :: post) ++ [c] = pre ++ (t :: (post ++ [c])) by simp]
              exact List.drop_append_of_le_length hdpre
            refine ⟨d, t, ?_, ?_, ?_⟩
            · have hplen : pre.length < (hist ++ [c]).length := by
                rw [hhist]
                simp only [List.length_append, List.length_cons]
                omega
              omega
            · rw [h2]
              simp
            · have h1 : (pre ++ [t]).drop d = pre.drop d ++ [t] :=
                List.drop_append_of_le_length hdpre
              have hchunks : (SpeechSegment.new (p.speech_buffer ++ [c])).chunks =
                  (pre.drop d ++ [t]) ++ (t :: (post ++ [c])) := by
                show p.speech_buffer ++ [c] = _
                rw [hsb, h1]
                simp
              rw [hchunks, h2]
              have hco : ((pre.drop d ++ (t :: (post ++ [c]))) : Multiset AudioChunk) + {t} =
                  (((pre.drop d ++ (t :: (post ++ [c]))) ++ [t] : List AudioChunk) :
                    Multiset AudioChunk) := by
                rw [← Multiset.coe_singleton, Multiset.coe_add]
              rw [hco]
              apply Multiset.coe_eq_coe.mpr
              have heq : (pre.drop d ++ [t]) ++ (t :: (post ++ [c])) =
                  pre.drop d ++ (t :: (t :: (post ++ [c]))) := by simp
              rw [heq]
              have hp1 : List.Perm (pre.drop d ++ (t :: (t :: (post ++ [c]))))
                  (t :: (pre.drop d ++ (t :: (post ++ [c])))) := List.perm_middle
              have hp2 : List.Perm (t :: (pre.drop d ++ (t :: (post ++ [c]))))
                  ((pre.drop d ++ (t :: (post ++ [c]))) ++ [t]) :=
                (List.perm_append_singleton _ _).symm
              exact hp1.trans hp2

/-- Feeding chunks preserves the invariant, and every emitted segment is
the `SpeechSegment.new` of its chunks, whose multiset is a window of the
consumed stream minus an evicted prefix plus a duplicated opening chunk. -/
lemma processRun_inv {σ : Type} (det : σ → AudioChunk → Option (VadDecision × σ)) :
    ∀ (cs hist : List AudioChunk) (p p1 : VadProcessor σ) (segs : List SpeechSegment),
    ProcInv hist p → processRun det p cs = some (p1, segs) →
    (∀ seg ∈ segs, seg = SpeechSegment.new seg.chunks ∧
      ∃ win d t, win <:+: (hist ++ cs) ∧ d < win.length ∧ t ∈ win.drop d ∧
        (seg.chunks : Multiset AudioChunk) = (win.drop d : Multiset AudioChunk) + {t}) ∧
    (∃ hist1, ProcInv hist1 p1) := by
  intro cs
  induction cs with
  | nil =>
      intro hist p p1 segs hinv hrun
      unfold processRun at hrun
      simp only [Option.some.injEq, Prod.mk.injEq] at hrun
      obtain ⟨hp, hsegs⟩ := hrun
      subst hp
      subst hsegs
      exact ⟨by simp, hist, hinv⟩
  | cons c cs ih =>
      intro hist p p1 segs hinv hrun
      unfold processRun at hrun
      cases hdet : det p.detector c with
      | none =>
          rw [show process det p c = none by unfold process; rw [hdet]] at hrun
          simp at hrun
      | some v =>
          obtain ⟨dec, d1⟩ := v
          rw [show process det p c = some (processStep p c dec d1) by
            unfold process; rw [hdet]] at hrun
          dsimp only at hrun
          rcases hps : processStep p c dec d1 with ⟨pm, out⟩
          rw [hps] at hrun
          dsimp only at hrun
          cases hrest : processRun det pm cs with
          | none =>
              rw [hrest] at hrun
              simp at hrun
          | some w =>
              obtain ⟨p2, segs2⟩ := w
              rw [hrest] at hrun
              simp only [Option.some.injEq, Prod.mk.injEq] at hrun
              obtain ⟨hp2, hsegs⟩ := hrun
              subst hp2
              rcases processStep_inv p c dec d1 hist hinv with
                ⟨hout, hinv1⟩ | ⟨seg, hout, hinv1, hsegnew, d, t, hdlt, htmem, hmult⟩
              · rw [hps] at hout hinv1
                dsimp only at hout hinv1
                subst hout
                have hres := ih (hist ++ [c]) pm _ segs2 hinv1 hrest
                simp only [Option.toList] at hsegs
                rw [List.nil_append] at hsegs
                subst hsegs
                refine ⟨?_, hres.2⟩
                intro s hs
                have h := hres.1 s hs
                rwa [show (hist ++ [c]) ++ cs = hist ++ c :: cs by simp] at h
              · rw [hps] at hout hinv1
                dsimp only at hout hinv1
                subst hout
                have hres := ih [] pm _ segs2 hinv1 hrest
                simp only [Option.toList_some, List.singleton_append] at hsegs
                subst hsegs
                refine ⟨?_, hres.2⟩
                intro s hs
                rcases List.mem_cons.mp hs with hs1 | hs1
                · subst hs1
                  refine ⟨hsegnew, hist ++ [c], d, t, ?_, hdlt, htmem, hmult⟩
                  have hpfx : (hist ++ [c]) <+: (hist ++ c :: cs) := ⟨cs, by simp⟩
                  exact hpfx.isInfix
                · have h := hres.1 s hs1
                  obtain ⟨hnew, win, dw, tw, hwin, h1, h2, h3⟩ := h
                  refine ⟨hnew, win, dw, tw, ?_, h1, h2, h3⟩
                  rw [List.nil_append] at hwin
                  have hsfx : cs <:+ (hist ++ c :: cs) := ⟨hist ++ [c], by simp⟩
                  exact hwin.trans hsfx.isInfix


/-- C1 (amended): every segment emitted by a run of `VadProcessor::process`
from a fresh processor has, as a multiset, a contiguous window of the
consumed chunks (the chunks consumed since the previous emission or reset,
up to and including the closing chunk) minus an evicted pre-roll prefix,
PLUS ONE EXTRA COPY of the opening speech chunk `t`: the triggering chunk
enters the segment twice, once from the drained pre-roll buffer and once
appended explicitly. -/
theorem claim1_segment_multiset {σ : Type}
    (det : σ → AudioChunk → Option (VadDecision × σ)) (cfg : VadProcessorConfig)
    (d0 : σ) (cs : List AudioChunk) (p1 : VadProcessor σ) (segs : List SpeechSegment)
    (h : processRun det (VadProcessor.new cfg d0) cs = some (p1, segs)) :
    ∀ seg ∈ segs, ∃ win d t, win <:+: cs ∧ d < win.length ∧ t ∈ win.drop d ∧
      (seg.chunks : Multiset AudioChunk) = (win.drop d : Multiset AudioChunk) + {t} := by
  intro seg hseg
  have hres := (processRun_inv det cs [] _ p1 segs (ProcInv_new cfg d0) h).1 seg hseg
  obtain ⟨_, win, d, t, hwin, h1, h2, h3⟩ := hres
  rw [List.nil_append] at hwin
  exact ⟨win, d, t, hwin, h1, h2, h3⟩

/-- The energy VAD configuration used for the concrete counterexample runs:
fixed threshold 1, one chunk of speech and one chunk of silence suffice. -/
def ceVadConfig : EnergyVadConfig :=
  { threshold := 1
    min_speech_chunks := 1
    min_silence_chunks := 1
    adaptive := false
    adaptive_window_size := 30 }

/-- A loud one-sample chunk (RMS 4 under the identity square root). -/
def chunkA : AudioChunk := { samples := [some 2], sample_rate := 1, timestamp := 0 }

/-- A silent one-sample chunk. -/
def chunkB : AudioChunk := { samples := [some 0], sample_rate := 1, timestamp := 1 }

/-- A 100 ms chunk: one sample at 10 Hz. -/
def chunk100 : AudioChunk := { samples := [some 0], sample_rate := 10, timestamp := 0 }

/-- Counterexample for C1 as stated: feeding the loud chunk `chunkA` and
then the silent chunk `chunkB` to a fresh processor over the energy
detector emits one segment whose chunk list is `[chunkA, chunkA, chunkB]`
-- the opening chunk `chunkA` is duplicated, so the segment multiset does
not equal the multiset `[chunkA, chunkB]` of consumed chunks (and nothing
was evicted from the pre-roll). -/
theorem claim1_counterexample :
    (processRun (detect id)
        (VadProcessor.new { pre_roll_ms := 300, post_roll_ms := 500 }
          (EnergyVad.new ceVadConfig)) [chunkA, chunkB]).map
      (fun x => x.2.map (fun s => s.chunks)) = some [[chunkA, chunkA, chunkB]] ∧
    ([chunkA, chunkA, chunkB] : Multiset AudioChunk) ≠
      ([chunkA, chunkB] : Multiset AudioChunk) := by
  constructor
  · norm_num [processRun, process, detect, calculate_rms_energy, sumSquares, addF, mulF,
      divF, sqrtF, fgt, update_background_energy, get_threshold, vadStep, EnergyVad.new,
      ceVadConfig, chunkA, chunkB, chunk100, processStep, computeMaxPreRoll, trimFront,
      VadProcessor.new, SpeechSegment.new, AudioChunk.duration_ms, AudioChunk.is_empty,
      show (VadDecision.Silence = VadDecision.Speech) = False from by decide,
      show (VadDecision.Speech = VadDecision.Silence) = False from by decide]
  · intro h
    have hcard := congrArg Multiset.card h
    simp only [Multiset.coe_card, List.length_cons, List.length_nil] at hcard
    omega

/-- Witness for C1 on the same two-chunk run. -/
theorem claim1_witness :
    ∃ p1 segs, processRun (detect id)
        (VadProcessor.new { pre_roll_ms := 300, post_roll_ms := 500 }
          (EnergyVad.new ceVadConfig)) [chunkA, chunkB] = some (p1, segs) ∧
      ∀ seg ∈ segs, ∃ win d t, win <:+: [chunkA, chunkB] ∧ d < win.length ∧
        t ∈ win.drop d ∧
        (seg.chunks : Multiset AudioChunk) = (win.drop d : Multiset AudioChunk) + {t} := by
  have hrun : processRun (detect id)
      (VadProcessor.new { pre_roll_ms := 300, post_roll_ms := 500 }
        (EnergyVad.new ceVadConfig)) [chunkA, chunkB] =
      some ({ config := { pre_roll_ms := 300, post_roll_ms := 500 }
              detector := { config := ceVadConfig, speech_count := 0, silence_count := 1,
                            current_state := VadDecision.Silence, energy_history := [],
                            background_energy := some 0 }
              state := ProcessorState.Idle
              pre_roll_buffer := []
              speech_buffer := []
              max_pre_roll_chunks := 1 },
            [SpeechSegment.new [chunkA, chunkA, chunkB]]) := by
    norm_num [processRun, process, detect, calculate_rms_energy, sumSquares, addF, mulF,
      divF, sqrtF, fgt, update_background_energy, get_threshold, vadStep, EnergyVad.new,
      ceVadConfig, chunkA, chunkB, chunk100, processStep, computeMaxPreRoll, trimFront,
      VadProcessor.new, SpeechSegment.new, AudioChunk.duration_ms, AudioChunk.is_empty,
      show (VadDecision.Silence = VadDecision.Speech) = False from by decide,
      show (VadDecision.Speech = VadDecision.Silence) = False from by decide]
  exact ⟨_, _, hrun, claim1_segment_multiset (detect id) _ _ [chunkA, chunkB] _ _ hrun⟩

/-! ## C4: pre-roll FIFO capacity -/

/-- C4 (amended): after the fresh processor sees its first non-empty chunk
of positive duration, the pre-roll capacity equals
`pre_roll_ms / chunk_ms + 1` (integer division -- one more than the
ceiling whenever `chunk_ms` divides `pre_roll_ms`, the ceiling otherwise),
and after every run of `process` calls the FIFO holds at most
`max_pre_roll_chunks` chunks. -/
theorem claim4_pre_roll_capacity {σ : Type}
    (det : σ → AudioChunk → Option (VadDecision × σ)) (cfg : VadProcessorConfig)
    (d0 : σ) :
    (∀ (c : AudioChunk) (p1 : VadProcessor σ) (out : Option SpeechSegment),
        c.is_empty = false → 0 < c.duration_ms →
        process det (VadProcessor.new cfg d0) c = some (p1, out) →
        p1.max_pre_roll_chunks = cfg.pre_roll_ms / c.duration_ms + 1) ∧
    (∀ (cs : List AudioChunk) (p1 : VadProcessor σ) (segs : List SpeechSegment),
        processRun det (VadProcessor.new cfg d0) cs = some (p1, segs) →
        p1.pre_roll_buffer.length ≤ p1.max_pre_roll_chunks) := by
  constructor
  · intro c p1 out hne hdur hp
    unfold process at hp
    cases hdet : det (VadProcessor.new cfg d0).detector c with
    | none => rw [hdet] at hp; simp at hp
    | some v =>
        obtain ⟨dec, d1⟩ := v
        rw [hdet] at hp
        simp only [Option.some.injEq] at hp
        have hm : p1.max_pre_roll_chunks =
            computeMaxPreRoll (VadProcessor.new cfg d0) c := by
          rw [show p1 = (processStep (VadProcessor.new cfg d0) c dec d1).1 by rw [hp]]
          exact processStep_max _ _ _ _
        rw [hm]
        unfold computeMaxPreRoll
        rw [if_pos ⟨by simp [VadProcessor.new], hne, hdur⟩]
        simp [VadProcessor.new]
  · intro cs p1 segs hrun
    obtain ⟨hist1, hinv⟩ :=
      (processRun_inv det cs [] _ p1 segs (ProcInv_new cfg d0) hrun).2
    exact hinv.2.1

/-- The fresh processor state after `chunk100` with the counterexample
detector: the chunk went into the pre-roll and the capacity was set to
`300 / 100 + 1 = 4`. -/
def c4p1 : VadProcessor EnergyVad :=
  { config := { pre_roll_ms := 300, post_roll_ms := 500 }
    detector := EnergyVad.new ceVadConfig
    state := ProcessorState.Idle
    pre_roll_buffer := [chunk100]
    speech_buffer := []
    max_pre_roll_chunks := 4 }

/-- Counterexample for C4 as stated: with `pre_roll_ms = 300` and a 100 ms
first chunk the code sets the capacity to `300 / 100 + 1 = 4`, while the
claimed formula `ceil(300 / 100)` gives 3. -/
theorem claim4_counterexample :
    chunk100.duration_ms = 100 ∧
    (process (detect id)
        (VadProcessor.new { pre_roll_ms := 300, post_roll_ms := 500 }
          (EnergyVad.new ceVadConfig)) chunk100).map
      (fun x => x.1.max_pre_roll_chunks) = some 4 ∧
    specPreRollCapacity 300 100 = 3 ∧
    ¬ (some 4 : Option ℕ) = some (specPreRollCapacity 300 100) := by
  refine ⟨by decide, ?_, by decide, by decide⟩
  norm_num [processRun, process, detect, calculate_rms_energy, sumSquares, addF, mulF,
      divF, sqrtF, fgt, update_background_energy, get_threshold, vadStep, EnergyVad.new,
      ceVadConfig, chunkA, chunkB, chunk100, processStep, computeMaxPreRoll, trimFront,
      VadProcessor.new, SpeechSegment.new, AudioChunk.duration_ms, AudioChunk.is_empty,
      show (VadDecision.Silence = VadDecision.Speech) = False from by decide,
      show (VadDecision.Speech = VadDecision.Silence) = False from by decide]

/-- Witness for C4 at the concrete 100 ms chunk. -/
theorem claim4_witness :
    c4p1.max_pre_roll_chunks = 300 / chunk100.duration_ms + 1 ∧
    c4p1.pre_roll_buffer.length ≤ c4p1.max_pre_roll_chunks :=
  ⟨(claim4_pre_roll_capacity (detect id) { pre_roll_ms := 300, post_roll_ms := 500 }
      (EnergyVad.new ceVadConfig)).1 chunk100 c4p1 none (by decide) (by decide)
      (by norm_num [processRun, process, detect, calculate_rms_energy, sumSquares, addF, mulF,
      divF, sqrtF, fgt, update_background_energy, get_threshold, vadStep, EnergyVad.new,
      ceVadConfig, chunkA, chunkB, chunk100, c4p1, processStep, computeMaxPreRoll, trimFront,
      VadProcessor.new, SpeechSegment.new, AudioChunk.duration_ms, AudioChunk.is_empty,
      show (VadDecision.Silence = VadDecision.Speech) = False from by decide,
      show (VadDecision.Speech = VadDecision.Silence) = False from by decide]),
   (claim4_pre_roll_capacity (detect id) { pre_roll_ms := 300, post_roll_ms := 500 }
      (EnergyVad.new ceVadConfig)).2 [chunk100] c4p1 []
      (by norm_num [processRun, process, detect, calculate_rms_energy, sumSquares, addF, mulF,
      divF, sqrtF, fgt, update_background_energy, get_threshold, vadStep, EnergyVad.new,
      ceVadConfig, chunkA, chunkB, chunk100, c4p1, processStep, computeMaxPreRoll, trimFront,
      VadProcessor.new, SpeechSegment.new, AudioChunk.duration_ms, AudioChunk.is_empty,
      show (VadDecision.Silence = VadDecision.Speech) = False from by decide,
      show (VadDecision.Speech = VadDecision.Silence) = False from by decide])⟩

/-! ## C9: emitted segments are non-empty -/

/-- C9: every segment emitted by a run from a fresh processor has at least
two chunks (in fact the opening chunk appears with the pre-roll and again
appended, and the closing silence chunk is included), and its `start_time`
and sample rate are taken from its first chunk. -/
theorem claim9_segment_nonempty {σ : Type}
    (det : σ → AudioChunk → Option (VadDecision × σ)) (cfg : VadProcessorConfig)
    (d0 : σ) (cs : List AudioChunk) (p1 : VadProcessor σ) (segs : List SpeechSegment)
    (h : processRun det (VadProcessor.new cfg d0) cs = some (p1, segs)) :
    ∀ seg ∈ segs, seg.chunks ≠ [] ∧ 2 ≤ seg.chunks.length ∧
      ∃ c0 rest, seg.chunks = c0 :: rest ∧ seg.start_time = c0.timestamp ∧
        SpeechSegment.sampleRate seg = c0.sample_rate := by
  intro seg hseg
  have hres := (processRun_inv det cs [] _ p1 segs (ProcInv_new cfg d0) h).1 seg hseg
  obtain ⟨hnew, win, d, t, _hwin, h1, _h2, h3⟩ := hres
  have hcard : seg.chunks.length = (win.drop d).length + 1 := by
    have := congrArg Multiset.card h3
    simpa [Multiset.coe_card] using this
  have hlen2 : 2 ≤ seg.chunks.length := by
    rw [hcard, List.length_drop]
    omega
  cases hchunks : seg.chunks with
  | nil => rw [hchunks] at hlen2; simp at hlen2
  | cons c0 rest =>
      rw [hchunks] at hlen2
      refine ⟨by simp [hchunks], hlen2, c0, rest, rfl, ?_, ?_⟩
      · rw [hnew, hchunks]
        simp [SpeechSegment.new]
      · rw [hnew, hchunks]
        simp [SpeechSegment.sampleRate, SpeechSegment.new]

/-- Witness for C9 on the two-chunk run emitting `[chunkA, chunkA,
chunkB]`. -/
theorem claim9_witness :
    (SpeechSegment.new [chunkA, chunkA, chunkB]).chunks ≠ [] ∧
    2 ≤ (SpeechSegment.new [chunkA, chunkA, chunkB]).chunks.length := by
  have h := claim9_segment_nonempty (detect id)
      { pre_roll_ms := 300, post_roll_ms := 500 } (EnergyVad.new ceVadConfig)
      [chunkA, chunkB]
      { config := { pre_roll_ms := 300, post_roll_ms := 500 }
        detector := { config := ceVadConfig, speech_count := 0, silence_count := 1,
                      current_state := VadDecision.Silence, energy_history := [],
                      background_energy := some 0 }
        state := ProcessorState.Idle
        pre_roll_buffer := []
        speech_buffer := []
        max_pre_roll_chunks := 1 }
      [SpeechSegment.new [chunkA, chunkA, chunkB]]
      (by norm_num [processRun, process, detect, calculate_rms_energy, sumSquares, addF, mulF,
      divF, sqrtF, fgt, update_background_energy, get_threshold, vadStep, EnergyVad.new,
      ceVadConfig, chunkA, chunkB, chunk100, processStep, computeMaxPreRoll, trimFront,
      VadProcessor.new, SpeechSegment.new, AudioChunk.duration_ms, AudioChunk.is_empty,
      show (VadDecision.Silence = VadDecision.Speech) = False from by decide,
      show (VadDecision.Speech = VadDecision.Silence) = False from by decide])
      (SpeechSegment.new [chunkA, chunkA, chunkB]) (List.mem_singleton.mpr rfl)
  exact ⟨h.1, h.2.1⟩

/-! ## Energy detector helper lemmas (C2, C6, C10) -/

/-- Folding the sum of squares from NaN stays NaN. -/
lemma foldSquares_none (l : List F32) :
    l.foldl (fun acc s => addF acc (mulF s s)) none = none := by
  induction l with
  | nil => rfl
  | cons s l ih =>
      rw [List.foldl_cons]
      rw [show addF none (mulF s s) = none by cases mulF s s <;> rfl]
      exact ih

/-- The sum of squares only grows above its accumulator. -/
lemma foldSquares_ge (l : List F32) :
    ∀ (a q : ℚ), l.foldl (fun acc s => addF acc (mulF s s)) (some a) = some q → a ≤ q := by
  induction l with
  | nil =>
      intro a q h
      simp only [List.foldl_nil, Option.some.injEq] at h
      exact le_of_eq h
  | cons s l ih =>
      intro a q h
      rw [List.foldl_cons] at h
      cases s with
      | none =>
          rw [show addF (some a) (mulF none none) = none from rfl] at h
          rw [foldSquares_none] at h
          cases h
      | some x =>
          rw [show addF (some a) (mulF (some x) (some x)) = some (a + x * x) from rfl] at h
          have := ih _ _ h
          nlinarith [mul_self_nonneg x]

/-- A computed sum of squares is non-negative. -/
lemma sumSquares_some_nonneg (samples : List F32) (q : ℚ)
    (h : sumSquares samples = some q) : 0 ≤ q :=
  foldSquares_ge samples 0 q h

/-- The sum of squares of NaN-free samples is a (non-negative) number. -/
lemma foldSquares_some (l : List F32) (h : ∀ s ∈ l, s.isSome = true) :
    ∀ a : ℚ, ∃ q, l.foldl (fun acc s => addF acc (mulF s s)) (some a) = some q := by
  induction l with
  | nil => exact fun a => ⟨a, rfl⟩
  | cons s l ih =>
      intro a
      obtain ⟨x, hx⟩ := Option.isSome_iff_exists.mp (h s (by simp))
      subst hx
      rw [List.foldl_cons]
      exact ih (fun s hs => h s (by simp [hs])) (a + x * x)

/-- The RMS of NaN-free samples is a number. -/
lemma rms_some_of_clean (sq : ℚ → ℚ) (samples : List F32)
    (h : ∀ s ∈ samples, s.isSome = true) :
    ∃ r, calculate_rms_energy sq samples = some r := by
  unfold calculate_rms_energy
  by_cases he : samples.isEmpty
  · exact ⟨0, by rw [if_pos he]⟩
  · rw [if_neg he]
    obtain ⟨q, hq⟩ := foldSquares_some samples h 0
    have hq0 : 0 ≤ q := sumSquares_some_nonneg samples q hq
    have hlen : ((samples.length : ℚ)) ≠ 0 := by
      simp only [ne_eq, Nat.cast_eq_zero, List.length_eq_zero]
      intro hc
      rw [hc] at he
      exact he rfl
    refine ⟨sq (q / (samples.length : ℚ)), ?_⟩
    rw [show sumSquares samples = some q from hq]
    simp only [divF]
    rw [if_neg hlen]
    simp only [sqrtF]
    rw [if_neg ?_]
    push_neg
    positivity

/-- A computed RMS value is non-negative when the abstract square root
preserves non-negativity. -/
lemma rms_some_nonneg (sq : ℚ → ℚ) (hsqn : ∀ q, 0 ≤ q → 0 ≤ sq q)
    (samples : List F32) (r : ℚ)
    (h : calculate_rms_energy sq samples = some r) : 0 ≤ r := by
  unfold calculate_rms_energy at h
  split at h
  · simp only [Option.some.injEq] at h
    rw [← h]
  · cases hss : sumSquares samples with
    | none =>
        rw [hss] at h
        simp [divF, sqrtF] at h
    | some q =>
        rw [hss] at h
        simp only [divF] at h
        by_cases hb : ((samples.length : ℚ)) = 0
        · rw [if_pos hb] at h
          simp [sqrtF] at h
        · rw [if_neg hb] at h
          simp only [sqrtF] at h
          split at h
          · cases h
          · simp only [Option.some.injEq] at h
            have hq : 0 ≤ q := sumSquares_some_nonneg _ _ hss
            have hlen : (0:ℚ) ≤ (samples.length : ℚ) := by positivity
            rw [← h]
            exact hsqn _ (div_nonneg hq hlen)

/-- Sorting a NaN-free window succeeds and permutes it (stated for a
mapped list of rationals). -/
lemma sortedF_map_some (qs : List ℚ) :
    sortedF (qs.map some) =
      some ((qs.insertionSort (fun a b => a ≤ b)).map some) := by
  unfold sortedF
  by_cases h : (qs.map some).length ≤ 1
  · rw [if_pos h]
    rw [List.length_map] at h
    match qs, h with
    | [], _ => rfl
    | [x], _ => rfl
  · rw [if_neg h]
    rw [if_neg (by simp)]
    congr 1
    have : (qs.map some).filterMap id = qs := by
      rw [List.filterMap_map]
      simp
    rw [this]

/-- Sorting any NaN-free window succeeds. -/
lemma sortedF_isSome_of_clean (l : List F32) (h : ∀ e ∈ l, e.isSome = true) :
    (sortedF l).isSome = true := by
  unfold sortedF
  split
  · rfl
  · rw [if_neg ?_]
    · rfl
    · intro ha
      obtain ⟨e, he, hne⟩ := List.any_eq_true.mp ha
      have h2 := h e he
      rw [Option.isNone_iff_eq_none.mp hne] at h2
      cases h2

/-- Elements of a successful sort come from the window. -/
lemma sortedF_mem (l l' : List F32) (h : sortedF l = some l') :
    ∀ e ∈ l', e ∈ l := by
  unfold sortedF at h
  split at h
  · simp only [Option.some.injEq] at h
    rw [← h]
    exact fun e he => he
  · split at h
    · cases h
    · simp only [Option.some.injEq] at h
      intro e he
      rw [← h] at he
      obtain ⟨q, hq, rfl⟩ := List.mem_map.mp he
      have hq2 : q ∈ l.filterMap id :=
        ((List.perm_insertionSort (fun a b => a ≤ b) (l.filterMap id)).mem_iff).mp hq
      obtain ⟨a, ha, hfa⟩ := List.mem_filterMap.mp hq2
      rw [show a = some q from hfa] at ha
      exact ha

/-- `getD` at an in-range index is a member. -/
lemma getD_mem (l : List F32) (i : ℕ) (hi : i < l.length) : l.getD i none ∈ l := by
  rw [List.getD_eq_getElem?_getD, List.getElem?_eq_getElem hi]
  exact List.getElem_mem hi

/-- Entries of a successful pushed window come from the old window or are
the pushed value. -/
lemma pushWindow_mem (n : ℕ) (hist : List F32) (e x : F32)
    (hx : x ∈ pushWindow n hist e) : x ∈ hist ∨ x = e := by
  unfold pushWindow at hx
  have hx2 : x ∈ hist ++ [e] := by
    dsimp only at hx
    split at hx
    · exact List.mem_of_mem_drop hx
    · exact hx
  rcases List.mem_append.mp hx2 with h | h
  · exact Or.inl h
  · exact Or.inr (List.mem_singleton.mp h)

/-- `update_background_energy` only changes the window and background
estimate. -/
lemma update_fields (st : EnergyVad) (e : F32) (st1 : EnergyVad)
    (h : update_background_energy st e = some st1) :
    st1.config = st.config ∧ st1.speech_count = st.speech_count ∧
    st1.silence_count = st.silence_count ∧ st1.current_state = st.current_state := by
  unfold update_background_energy at h
  split at h
  · simp only [Option.some.injEq] at h
    rw [← h]
    exact ⟨rfl, rfl, rfl, rfl⟩
  · dsimp only at h
    split at h
    · simp only [Option.some.injEq] at h
      rw [← h]
      exact ⟨rfl, rfl, rfl, rfl⟩
    · split at h
      · cases h
      · simp only [Option.some.injEq] at h
        rw [← h]
        exact ⟨rfl, rfl, rfl, rfl⟩

/-- `update_background_energy` keeps the window within the configured
size. -/
lemma update_hist_le (st : EnergyVad) (e : F32) (st1 : EnergyVad)
    (h : update_background_energy st e = some st1)
    (hlen : st.energy_history.length ≤ st.config.adaptive_window_size) :
    st1.energy_history.length ≤ st.config.adaptive_window_size := by
  have hpw : (pushWindow st.config.adaptive_window_size st.energy_history e).length ≤
      st.config.adaptive_window_size := by
    unfold pushWindow
    dsimp only
    split
    · simp only [List.length_drop, List.length_append, List.length_cons, List.length_nil]
      omega
    · simp only [List.length_append, List.length_cons, List.length_nil] at *
      omega
  unfold update_background_energy at h
  split at h
  · simp only [Option.some.injEq] at h
    rw [← h]
    exact hlen
  · dsimp only at h
    split at h
    · simp only [Option.some.injEq] at h
      rw [← h]
      exact hpw
    · split at h
      · cases h
      · simp only [Option.some.injEq] at h
        rw [← h]
        exact hpw

/-- `vadStep` keeps the configuration and the energy window. -/
lemma vadStep_fields (st : EnergyVad) (b : Bool) :
    (vadStep st b).2.config = st.config ∧
    (vadStep st b).2.energy_history = st.energy_history ∧
    (vadStep st b).2.background_energy = st.background_energy := by
  unfold vadStep
  cases st.current_state <;> cases b <;> dsimp only <;> split_ifs <;>
    exact ⟨rfl, rfl, rfl⟩

/-- Splitting a successful `detect` into its update and state-machine
phases. -/
lemma detect_elim (sq : ℚ → ℚ) (st : EnergyVad) (c : AudioChunk)
    (d : VadDecision) (st1 : EnergyVad)
    (h : detect sq st c = some (d, st1)) :
    ∃ stm, update_background_energy st (calculate_rms_energy sq c.samples) = some stm ∧
      (d, st1) = vadStep stm (fgt (calculate_rms_energy sq c.samples) (get_threshold stm)) := by
  unfold detect at h
  dsimp only at h
  cases hup : update_background_energy st (calculate_rms_energy sq c.samples) with
  | none =>
      rw [hup] at h
      simp at h
  | some stm =>
      rw [hup] at h
      simp only [Option.bind_eq_bind, Option.some_bind, Option.pure_def,
        Option.some.injEq] at h
      exact ⟨stm, rfl, h.symm⟩

/-! ## C10: totality of detect on NaN-free input -/

/-- An adaptive energy VAD configuration with threshold 1. -/
def adaptCfg : EnergyVadConfig :=
  { threshold := 1
    min_speech_chunks := 1
    min_silence_chunks := 1
    adaptive := true
    adaptive_window_size := 30 }

/-- An adaptive detector state whose window already holds one (clean) RMS
value. -/
def nanVadState : EnergyVad :=
  { config := adaptCfg
    speech_count := 0
    silence_count := 0
    current_state := VadDecision.Silence
    energy_history := [some 0]
    background_energy := some 0 }

/-- A chunk carrying a NaN sample. -/
def nanChunk : AudioChunk := { samples := [none], sample_rate := 1, timestamp := 0 }

/-- C10: for a chunk whose samples are all numbers (non-NaN) and a detector
state whose stored RMS window is NaN-free, `EnergyVad::detect` returns a
decision (the adaptive median sort cannot panic); the RMS of an empty
sample list is 0.0; and with NaN present totality indeed fails: there is a
state and a NaN-carrying chunk on which `detect` panics. -/
theorem claim10_detect_total (sq : ℚ → ℚ) (st : EnergyVad) (c : AudioChunk)
    (hh : ∀ e ∈ st.energy_history, e.isSome = true)
    (hc : ∀ s ∈ c.samples, s.isSome = true) :
    (detect sq st c).isSome = true ∧
    calculate_rms_energy sq [] = some 0 ∧
    (∃ (st2 : EnergyVad) (c2 : AudioChunk),
      (∃ s ∈ c2.samples, s = none) ∧ detect sq st2 c2 = none) := by
  refine ⟨?_, rfl, ?_⟩
  · obtain ⟨r, hr⟩ := rms_some_of_clean sq c.samples hc
    have hup : (update_background_energy st (calculate_rms_energy sq c.samples)).isSome
        = true := by
      rw [hr]
      unfold update_background_energy
      split
      · rfl
      · dsimp only
        split
        · rfl
        · have hclean : ∀ e ∈ pushWindow st.config.adaptive_window_size
              st.energy_history (some r), e.isSome = true := by
            intro e he
            rcases pushWindow_mem _ _ _ _ he with h | h
            · exact hh e h
            · rw [h]
              rfl
          have := sortedF_isSome_of_clean _ hclean
          obtain ⟨l', hl'⟩ := Option.isSome_iff_exists.mp this
          rw [hl']
          rfl
    obtain ⟨stm, hstm⟩ := Option.isSome_iff_exists.mp hup
    unfold detect
    dsimp only
    rw [hstm]
    rfl
  · refine ⟨nanVadState, nanChunk, ⟨none, by simp [nanChunk], rfl⟩, ?_⟩
    rfl

/-- Witness for C10: the clean fresh adaptive state on the loud chunk. -/
theorem claim10_witness :
    (detect id (EnergyVad.new adaptCfg) chunkA).isSome = true :=
  (claim10_detect_total id _ chunkA (by simp [EnergyVad.new]) (by decide)).1

/-! ## C6: the effective threshold -/

/-- The most recent `n` values of a list (spec side: the sliding window of
the most recent RMS values). -/
def takeLast (n : ℕ) (l : List ℚ) : List ℚ :=
  l.drop (l.length - n)

/-- Ascending sort of rationals (spec side). -/
def sortQ (l : List ℚ) : List ℚ :=
  l.insertionSort (fun a b => a ≤ b)

/-- The median as the code computes it: the upper middle element of the
sorted window (spec side, following the specification's `median`). -/
def medianQ (l : List ℚ) : ℚ :=
  (sortQ l).getD (l.length / 2) 0

/-- Pushing into a window of mapped rationals within capacity is taking the
most recent `n` values. -/
lemma pushWindow_map_some (n : ℕ) (qs : List ℚ) (r : ℚ) (hlen : qs.length ≤ n) :
    pushWindow n (qs.map some) (some r) = (takeLast n (qs ++ [r])).map some := by
  unfold pushWindow takeLast
  dsimp only
  rw [show qs.map some ++ [some r] = (qs ++ [r]).map some by simp]
  rw [List.length_map]
  have hl : (qs ++ [r]).length = qs.length + 1 := by simp
  by_cases h : n < (qs ++ [r]).length
  · rw [if_pos h, ← List.map_drop]
    congr 2
    omega
  · rw [if_neg h]
    rw [show (qs ++ [r]).length - n = 0 by omega, List.drop_zero]

/-- `getD` on a mapped list at an in-range index. -/
lemma getD_map_some (l : List ℚ) (i : ℕ) (hi : i < l.length) :
    (l.map some).getD i none = some (l.getD i 0) := by
  rw [List.getD_eq_getElem?_getD, List.getD_eq_getElem?_getD]
  rw [List.getElem?_map]
  rw [List.getElem?_eq_getElem hi]
  rfl

/-- In adaptive mode, updating a clean in-capacity window sets the stored
window to the most recent values and the background estimate to their
median. -/
lemma update_adaptive (st : EnergyVad) (r : ℚ) (qs : List ℚ)
    (hh : st.energy_history = qs.map some)
    (hN : 1 ≤ st.config.adaptive_window_size)
    (hlen : qs.length ≤ st.config.adaptive_window_size)
    (hadapt : st.config.adaptive = true) :
    update_background_energy st (some r) =
      some { st with
               energy_history :=
                 (takeLast st.config.adaptive_window_size (qs ++ [r])).map some
               background_energy :=
                 some (medianQ (takeLast st.config.adaptive_window_size (qs ++ [r]))) } := by
  have hw : pushWindow st.config.adaptive_window_size st.energy_history (some r) =
      (takeLast st.config.adaptive_window_size (qs ++ [r])).map some := by
    rw [hh]
    exact pushWindow_map_some _ _ _ hlen
  have hwlen : 1 ≤ (takeLast st.config.adaptive_window_size (qs ++ [r])).length := by
    unfold takeLast
    rw [List.length_drop, List.length_append, List.length_cons, List.length_nil]
    omega
  unfold update_background_energy
  rw [if_neg (by rw [hadapt]; intro hcontra; cases hcontra)]
  dsimp only
  rw [hw]
  rw [if_neg (by
    intro hcontra
    rw [List.isEmpty_iff, List.map_eq_nil_iff] at hcontra
    rw [hcontra] at hwlen
    simp at hwlen)]
  rw [sortedF_map_some]
  dsimp only
  have hslen : (List.insertionSort (fun a b => a ≤ b)
      (takeLast st.config.adaptive_window_size (qs ++ [r]))).length =
      (takeLast st.config.adaptive_window_size (qs ++ [r])).length :=
    List.length_insertionSort _ _
  congr 2
  rw [List.length_map, hslen]
  rw [getD_map_some _ _ (by rw [hslen]; omega)]
  unfold medianQ sortQ
  rfl

/-- Detector states reachable from `EnergyVad::new` by `detect` steps. -/
inductive Reachable (sq : ℚ → ℚ) : EnergyVad → Prop where
  | init (cfg : EnergyVadConfig) : Reachable sq (EnergyVad.new cfg)
  | step {st : EnergyVad} {chunk : AudioChunk} {d : VadDecision} {st1 : EnergyVad}
      (h : Reachable sq st) (hd : detect sq st chunk = some (d, st1)) : Reachable sq st1

/-- The stored RMS window of a reachable detector never exceeds the
configured window size. -/
lemma reachable_hist_le (sq : ℚ → ℚ) (st : EnergyVad) (h : Reachable sq st) :
    st.energy_history.length ≤ st.config.adaptive_window_size := by
  induction h with
  | init cfg => simp [EnergyVad.new]
  | step h hd ih =>
      rename_i st chunk d st1
      obtain ⟨stm, hup, hvs⟩ := detect_elim sq st chunk d st1 hd
      obtain ⟨hcfg, _, _, _⟩ := update_fields st _ stm hup
      have hm := update_hist_le st _ stm hup ih
      have hfields := vadStep_fields stm (fgt (calculate_rms_energy sq chunk.samples)
        (get_threshold stm))
      have h1 : st1 = (vadStep stm (fgt (calculate_rms_energy sq chunk.samples)
          (get_threshold stm))).2 := congrArg Prod.snd hvs
      rw [h1, hfields.2.1, hfields.1, hcfg]
      exact hm

/-- C6: on every reachable detector state with a NaN-free window and every
chunk whose RMS is a number `r`, the chunk is classified above-threshold
exactly when `r` strictly exceeds the effective threshold: the median of
the most recent `adaptive_window_size` RMS values (current chunk included)
plus `config.threshold` in adaptive mode, and the raw `config.threshold`
otherwise. -/
theorem claim6_effective_threshold (sq : ℚ → ℚ) (st : EnergyVad) (c : AudioChunk)
    (r : ℚ) (qs : List ℚ)
    (hre : Reachable sq st) (hN : 1 ≤ st.config.adaptive_window_size)
    (hr : calculate_rms_energy sq c.samples = some r)
    (hh : st.energy_history = qs.map some) :
    detectHasSpeech sq st c =
      some (decide ((if st.config.adaptive then
          medianQ (takeLast st.config.adaptive_window_size (qs ++ [r])) + st.config.threshold
        else st.config.threshold) < r)) := by
  unfold detectHasSpeech
  rw [hr]
  by_cases had : st.config.adaptive = true
  · have hlen : qs.length ≤ st.config.adaptive_window_size := by
      have := reachable_hist_le sq st hre
      rw [hh, List.length_map] at this
      exact this
    rw [update_adaptive st r qs hh hN hlen had, Option.map_some']
    congr 1
    simp [get_threshold, had, fgt, addF]
  · have hadf : st.config.adaptive = false := by
      cases hx : st.config.adaptive
      · rfl
      · exact absurd hx had
    rw [show update_background_energy st (some r) = some st from by
      unfold update_background_energy; rw [if_pos hadf]]
    rw [Option.map_some']
    congr 1
    simp [get_threshold, hadf, fgt]

/-- Witness for C6: the fresh adaptive detector on the loud chunk. -/
theorem claim6_witness :
    detectHasSpeech id (EnergyVad.new adaptCfg) chunkA =
      some (decide ((if (EnergyVad.new adaptCfg).config.adaptive then
          medianQ (takeLast (EnergyVad.new adaptCfg).config.adaptive_window_size
            (([] : List ℚ) ++ [4])) + (EnergyVad.new adaptCfg).config.threshold
        else (EnergyVad.new adaptCfg).config.threshold) < 4)) :=
  claim6_effective_threshold id (EnergyVad.new adaptCfg) chunkA 4 []
    (Reachable.init adaptCfg) (by norm_num [EnergyVad.new, adaptCfg])
    (by norm_num [calculate_rms_energy, sumSquares, addF, mulF, divF, sqrtF, chunkA])
    rfl

/-! ## C2: silent signals and the speech/silence round trip -/

/-- A purely silent chunk: every sample is exactly zero. -/
def SilentChunk (c : AudioChunk) : Prop :=
  ∀ s ∈ c.samples, s = some 0

/-- A detector state whose stored window and background estimate are
finite nonnegative numbers (no NaN has entered the detector). -/
def CleanDet (st : EnergyVad) : Prop :=
  (∀ e ∈ st.energy_history, ∃ q, e = some q ∧ 0 ≤ q) ∧
  (∃ b, st.background_energy = some b ∧ 0 ≤ b)

/-- A run of chunks each of which the energy detector, along the run being
fed into it, classifies strictly above its effective threshold (the
`has_speech` comparison comes out `true` at every step). -/
inductive AboveRun (sq : ℚ → ℚ) : EnergyVad → List AudioChunk → Prop where
  | nil (st : EnergyVad) : AboveRun sq st []
  | cons {st st1 : EnergyVad} {c : AudioChunk} {cs : List AudioChunk}
      (hup : update_background_energy st (calculate_rms_energy sq c.samples) = some st1)
      (hgt : fgt (calculate_rms_energy sq c.samples) (get_threshold st1) = true)
      (htail : AboveRun sq (vadStep st1 true).2 cs) :
      AboveRun sq st (c :: cs)

/-- A fresh detector is clean. -/
lemma CleanDet_new (cfg : EnergyVadConfig) : CleanDet (EnergyVad.new cfg) :=
  ⟨fun e he => absurd he (List.not_mem_nil e), ⟨0, rfl, le_refl 0⟩⟩

/-- Folding the sum of squares over all-zero samples leaves the
accumulator unchanged. -/
lemma silent_foldSquares (l : List F32) (hl : ∀ s ∈ l, s = some 0) :
    ∀ a : ℚ, l.foldl (fun acc s => addF acc (mulF s s)) (some a) = some a := by
  induction l with
  | nil => intro a; rfl
  | cons s rest ih =>
      intro a
      have hs : s = some 0 := hl s (by simp)
      rw [List.foldl_cons, hs]
      have h1 : addF (some a) (mulF (some 0) (some 0)) = some a := by
        simp [addF, mulF]
      rw [h1]
      exact ih (fun x hx => hl x (by simp [hx])) a

/-- The RMS energy of a purely silent chunk is exactly zero. -/
lemma silent_rms (sq : ℚ → ℚ) (hsq0 : sq 0 = 0) (c : AudioChunk)
    (hc : SilentChunk c) : calculate_rms_energy sq c.samples = some 0 := by
  unfold calculate_rms_energy
  by_cases he : c.samples.isEmpty
  · rw [if_pos he]
  · rw [if_neg he]
    unfold sumSquares
    rw [silent_foldSquares c.samples hc 0]
    have hn : (c.samples.length : ℚ) ≠ 0 := by
      have : c.samples ≠ [] := by
        intro hx
        rw [hx] at he
        exact he rfl
      have hl : 0 < c.samples.length := List.length_pos.mpr this
      exact_mod_cast Nat.pos_iff_ne_zero.mp hl
    rw [show divF (some 0) (some ((c.samples.length : ℚ))) = some 0 from by
      simp [divF, hn]]
    simp [sqrtF, hsq0]

/-- The effective threshold of a clean detector is a number at least the
configured offset. -/
lemma get_threshold_some (st : EnergyVad) (hc : CleanDet st) :
    ∃ v, get_threshold st = some v ∧ st.config.threshold ≤ v := by
  obtain ⟨hh, b, hb, hbn⟩ := hc
  unfold get_threshold
  by_cases ha : st.config.adaptive = true
  · rw [if_pos ha, hb]
    exact ⟨b + st.config.threshold, by simp [addF], by linarith⟩
  · rw [if_neg ha]
    exact ⟨st.config.threshold, rfl, le_refl _⟩

/-- A NaN-free list keeps its length through the comparison sort's
`filter_map`. -/
lemma length_filterMap_id (l : List F32)
    (h : l.any (fun x => x.isNone) = false) :
    (l.filterMap id).length = l.length := by
  induction l with
  | nil => rfl
  | cons x xs ih =>
      simp only [List.any_cons, Bool.or_eq_false_iff] at h
      cases x with
      | none => simp at h
      | some q =>
          rw [show List.filterMap id (some q :: xs) = q :: List.filterMap id xs from rfl]
          rw [List.length_cons, List.length_cons, ih h.2]

/-- The comparison sort preserves the number of entries. -/
lemma sortedF_length (l l' : List F32) (h : sortedF l = some l') :
    l'.length = l.length := by
  unfold sortedF at h
  split at h
  · simp only [Option.some.injEq] at h
    rw [← h]
  · split at h
    · cases h
    · rename_i hall
      simp only [Option.some.injEq] at h
      rw [← h, List.length_map, List.length_insertionSort]
      exact length_filterMap_id l (by
        cases hx : l.any (fun x => x.isNone)
        · rfl
        · exact absurd hx hall)

/-- On a NaN-free window the background update never panics. -/
lemma update_some_of_clean (st : EnergyVad) (r : ℚ)
    (hall : ∀ e ∈ st.energy_history, e.isSome = true) :
    ∃ st1, update_background_energy st (some r) = some st1 := by
  unfold update_background_energy
  split
  · exact ⟨st, rfl⟩
  · dsimp only
    split
    · exact ⟨_, rfl⟩
    · have hall2 : ∀ e ∈ pushWindow st.config.adaptive_window_size
          st.energy_history (some r), e.isSome = true := by
        intro e he
        rcases pushWindow_mem _ _ _ _ he with h | h
        · exact hall e h
        · rw [h]; rfl
      have hsome := sortedF_isSome_of_clean _ hall2
      cases hs : sortedF (pushWindow st.config.adaptive_window_size
          st.energy_history (some r)) with
      | none => rw [hs] at hsome; cases hsome
      | some sorted => exact ⟨_, rfl⟩

/-- Updating a clean detector with a nonnegative energy keeps it clean. -/
lemma update_clean (st : EnergyVad) (r : ℚ) (st1 : EnergyVad)
    (hcl : CleanDet st) (hr : 0 ≤ r)
    (h : update_background_energy st (some r) = some st1) :
    CleanDet st1 := by
  unfold update_background_energy at h
  split at h
  · simp only [Option.some.injEq] at h
    rw [← h]; exact hcl
  · dsimp only at h
    split at h
    · rename_i hemp
      simp only [Option.some.injEq] at h
      rw [List.isEmpty_iff] at hemp
      rw [← h]
      refine ⟨?_, hcl.2⟩
      intro e he
      rw [hemp] at he
      cases he
    · rename_i hemp
      split at h
      · cases h
      · rename_i sorted hs
        simp only [Option.some.injEq] at h
        rw [List.isEmpty_iff] at hemp
        have hmemhist : ∀ e ∈ pushWindow st.config.adaptive_window_size
            st.energy_history (some r), ∃ q, e = some q ∧ 0 ≤ q := by
          intro e he
          rcases pushWindow_mem _ _ _ _ he with h1 | h1
          · exact hcl.1 e h1
          · exact ⟨r, h1, hr⟩
        have hlenpos : 0 < sorted.length := by
          rw [sortedF_length _ _ hs]
          exact List.length_pos.mpr hemp
        have hbmem := sortedF_mem _ _ hs _
          (getD_mem sorted (sorted.length / 2) (by omega))
        obtain ⟨q, hq, hqn⟩ := hmemhist _ hbmem
        rw [← h]
        exact ⟨hmemhist, ⟨q, hq, hqn⟩⟩

/-- An above-threshold step keeps a clean detector clean: the new
background estimate is the median of the pushed window, whose entries are
either old (nonnegative) values or the new energy, and the new energy
exceeds the effective threshold, hence is positive. -/
lemma clean_above (st st1 : EnergyVad) (E : F32)
    (hcl : CleanDet st) (ht : 0 < st.config.threshold)
    (hup : update_background_energy st E = some st1)
    (hgt : fgt E (get_threshold st1) = true) :
    CleanDet st1 := by
  cases hE : E with
  | none => rw [hE] at hgt; simp [fgt] at hgt
  | some r =>
  cases hth : get_threshold st1 with
  | none => rw [hE, hth] at hgt; simp [fgt] at hgt
  | some v =>
  rw [hE, hth] at hgt
  have hvr : v < r := by simpa [fgt] using hgt
  rw [hE] at hup
  unfold update_background_energy at hup
  split at hup
  · simp only [Option.some.injEq] at hup
    rw [← hup]; exact hcl
  · rename_i hadapt
    have hat : st.config.adaptive = true := by
      revert hadapt
      cases st.config.adaptive <;> simp
    dsimp only at hup
    split at hup
    · rename_i hemp
      simp only [Option.some.injEq] at hup
      rw [List.isEmpty_iff] at hemp
      rw [← hup]
      refine ⟨?_, hcl.2⟩
      intro e he
      rw [hemp] at he
      cases he
    · rename_i hemp
      split at hup
      · cases hup
      · rename_i sorted hs
        simp only [Option.some.injEq] at hup
        rw [List.isEmpty_iff] at hemp
        have hmemwin : ∀ e ∈ pushWindow st.config.adaptive_window_size
            st.energy_history (some r), (∃ q, e = some q ∧ 0 ≤ q) ∨ e = some r := by
          intro e he
          rcases pushWindow_mem _ _ _ _ he with h1 | h1
          · exact Or.inl (hcl.1 e h1)
          · exact Or.inr h1
        have hlenpos : 0 < sorted.length := by
          rw [sortedF_length _ _ hs]
          exact List.length_pos.mpr hemp
        have hbmem := sortedF_mem _ _ hs _
          (getD_mem sorted (sorted.length / 2) (by omega))
        -- the new background estimate is one of the window entries
        have hb1 : (∃ q, sorted.getD (sorted.length / 2) none = some q ∧ 0 ≤ q) ∨
            sorted.getD (sorted.length / 2) none = some r := hmemwin _ hbmem
        -- the effective threshold of the updated state
        have hthv : ∀ b1 : ℚ, sorted.getD (sorted.length / 2) none = some b1 →
            v = b1 + st.config.threshold := by
          intro b1 hb
          rw [← hup] at hth
          unfold get_threshold at hth
          rw [if_pos (by dsimp only; exact hat)] at hth
          dsimp only at hth
          rw [hb] at hth
          simp only [addF, Option.some.injEq] at hth
          exact hth.symm
        have hrpos : 0 ≤ r ∧ ∃ q, sorted.getD (sorted.length / 2) none = some q ∧ 0 ≤ q := by
          rcases hb1 with ⟨q, hq, hqn⟩ | hq
          · have hv := hthv q hq
            constructor
            · nlinarith [hvr]
            · exact ⟨q, hq, hqn⟩
          · have hv := hthv r hq
            rw [hv] at hvr
            nlinarith [hvr]
        rw [← hup]
        refine ⟨?_, hrpos.2⟩
        intro e he
        rcases hmemwin e he with h1 | h1
        · exact h1
        · exact ⟨r, h1, hrpos.1⟩

/-- Unfolding a successful `detect` in the forward direction. -/
lemma detect_intro (sq : ℚ → ℚ) (st stm : EnergyVad) (c : AudioChunk)
    (hup : update_background_energy st (calculate_rms_energy sq c.samples) = some stm) :
    detect sq st c =
      some (vadStep stm (fgt (calculate_rms_energy sq c.samples)
        (get_threshold stm))) := by
  unfold detect
  dsimp only
  rw [hup]
  simp only [Option.bind_eq_bind, Option.some_bind, Option.pure_def]

/-- A silent chunk fed to a clean detector with positive threshold
produces a definite `has_speech = false` step: the update succeeds, keeps
the counts, state and configuration, and the comparison fails. -/
lemma detect_silent (sq : ℚ → ℚ) (hsq0 : sq 0 = 0) (st : EnergyVad)
    (c : AudioChunk) (hcl : CleanDet st) (ht : 0 < st.config.threshold)
    (hsil : SilentChunk c) :
    ∃ st1, update_background_energy st (some 0) = some st1 ∧ CleanDet st1 ∧
      st1.config = st.config ∧ st1.current_state = st.current_state ∧
      st1.speech_count = st.speech_count ∧
      st1.silence_count = st.silence_count ∧
      detect sq st c = some (vadStep st1 false) := by
  have hrms : calculate_rms_energy sq c.samples = some 0 := silent_rms sq hsq0 c hsil
  have hall : ∀ e ∈ st.energy_history, e.isSome = true := by
    intro e he
    obtain ⟨q, hq, _⟩ := hcl.1 e he
    rw [hq]; rfl
  obtain ⟨st1, hup⟩ := update_some_of_clean st 0 hall
  obtain ⟨hcfg1, hsc1, hslc1, hcur1⟩ := update_fields st _ st1 hup
  have hcl1 : CleanDet st1 := update_clean st 0 st1 hcl le_rfl hup
  obtain ⟨v, hv, hvt⟩ := get_threshold_some st1 hcl1
  have hv0 : (0:ℚ) ≤ v := le_trans (le_of_lt (by rw [hcfg1]; exact ht)) hvt
  have hfalse : fgt (some 0) (get_threshold st1) = false := by
    rw [hv]
    simp only [fgt, decide_eq_false_iff_not, not_lt]
    exact hv0
  have hdet : detect sq st c = some (vadStep st1 false) := by
    unfold detect
    dsimp only
    rw [hrms, hup]
    simp only [Option.bind_eq_bind, Option.some_bind, Option.pure_def,
      Option.some.injEq]
    rw [hfalse]
  exact ⟨st1, hup, hcl1, hcfg1, hcur1, hsc1, hslc1, hdet⟩

/-- `vadStep` from the `Silence` state on a speech chunk. -/
lemma vadStep_silence_true (st : EnergyVad)
    (h : st.current_state = VadDecision.Silence) :
    vadStep st true =
      if st.config.min_speech_chunks ≤ st.speech_count + 1 then
        (VadDecision.Speech,
         { st with
             speech_count := st.speech_count + 1
             silence_count := 0
             current_state := VadDecision.Speech })
      else
        (VadDecision.Silence,
         { st with
             speech_count := st.speech_count + 1
             silence_count := 0 }) := by
  obtain ⟨cfg, sc, slc, cur, eh, bg⟩ := st
  dsimp only at h
  subst h
  unfold vadStep
  dsimp only
  rw [if_pos rfl]

/-- `vadStep` from the `Speech` state on a speech chunk. -/
lemma vadStep_speech_true (st : EnergyVad)
    (h : st.current_state = VadDecision.Speech) :
    vadStep st true =
      (VadDecision.Speech,
       { st with
           silence_count := 0
           speech_count := st.speech_count + 1 }) := by
  obtain ⟨cfg, sc, slc, cur, eh, bg⟩ := st
  dsimp only at h
  subst h
  unfold vadStep
  dsimp only
  rw [if_pos rfl]

/-- `vadStep` from the `Silence` state on a silent chunk. -/
lemma vadStep_silence_false (st : EnergyVad)
    (h : st.current_state = VadDecision.Silence) :
    vadStep st false =
      (VadDecision.Silence, { st with speech_count := 0 }) := by
  obtain ⟨cfg, sc, slc, cur, eh, bg⟩ := st
  dsimp only at h
  subst h
  unfold vadStep
  dsimp only
  rw [if_neg Bool.false_ne_true]

/-- `vadStep` from the `Speech` state on a silent chunk. -/
lemma vadStep_speech_false (st : EnergyVad)
    (h : st.current_state = VadDecision.Speech) :
    vadStep st false =
      if st.config.min_silence_chunks ≤ st.silence_count + 1 then
        (VadDecision.Silence,
         { st with
             speech_count := 0
             silence_count := st.silence_count + 1
             current_state := VadDecision.Silence })
      else
        (VadDecision.Speech,
         { st with
             speech_count := 0
             silence_count := st.silence_count + 1 }) := by
  obtain ⟨cfg, sc, slc, cur, eh, bg⟩ := st
  dsimp only at h
  subst h
  unfold vadStep
  dsimp only
  rw [if_neg Bool.false_ne_true]

/-- `process` when the detector returns a decision. -/
lemma process_detect {σ : Type} (det : σ → AudioChunk → Option (VadDecision × σ))
    (p : VadProcessor σ) (c : AudioChunk) (d : VadDecision) (d1 : σ)
    (h : det p.detector c = some (d, d1)) :
    process det p c = some (processStep p c d d1) := by
  unfold process
  rw [h]

/-- One-step unfolding of `processRun`. -/
lemma processRun_cons {σ : Type} (det : σ → AudioChunk → Option (VadDecision × σ))
    (p p1 p2 : VadProcessor σ) (c : AudioChunk) (cs : List AudioChunk)
    (out : Option SpeechSegment) (segs : List SpeechSegment)
    (h1 : process det p c = some (p1, out))
    (h2 : processRun det p1 cs = some (p2, segs)) :
    processRun det p (c :: cs) = some (p2, out.toList ++ segs) := by
  simp only [processRun, h1, h2]

/-- Chaining two successful runs. -/
lemma processRun_append {σ : Type} (det : σ → AudioChunk → Option (VadDecision × σ))
    (l1 : List AudioChunk) :
    ∀ (l2 : List AudioChunk) (p p1 p2 : VadProcessor σ)
      (s1 s2 : List SpeechSegment),
      processRun det p l1 = some (p1, s1) →
      processRun det p1 l2 = some (p2, s2) →
      processRun det p (l1 ++ l2) = some (p2, s1 ++ s2) := by
  induction l1 with
  | nil =>
      intro l2 p p1 p2 s1 s2 h1 h2
      unfold processRun at h1
      simp only [Option.some.injEq, Prod.mk.injEq] at h1
      obtain ⟨hp, hs⟩ := h1
      rw [List.nil_append, ← hs, List.nil_append, hp]
      exact h2
  | cons c cs ih =>
      intro l2 p p1 p2 s1 s2 h1 h2
      cases hpc : process det p c with
      | none =>
          have : processRun det p (c :: cs) = none := by
            simp only [processRun, hpc]
          rw [this] at h1
          cases h1
      | some pr =>
          obtain ⟨pa, out⟩ := pr
          cases hrc : processRun det pa cs with
          | none =>
              have : processRun det p (c :: cs) = none := by
                simp only [processRun, hpc, hrc]
              rw [this] at h1
              cases h1
          | some pr2 =>
              obtain ⟨pm, segs⟩ := pr2
              have hcc := processRun_cons det p pa pm c cs out segs hpc hrc
              rw [hcc] at h1
              simp only [Option.some.injEq, Prod.mk.injEq] at h1
              obtain ⟨hpm, hsegs⟩ := h1
              have htail := ih l2 pa pm p2 segs s2 hrc (by rw [hpm]; exact h2)
              rw [List.cons_append]
              rw [processRun_cons det p pa p2 c (cs ++ l2) out (segs ++ s2) hpc htail]
              rw [← hsegs, List.append_assoc]

/-- A purely silent run starting from an idle processor with a clean,
silence-state detector emits nothing and returns to the same kind of
state. -/
lemma run_silent (sq : ℚ → ℚ) (hsq0 : sq 0 = 0) (cs : List AudioChunk) :
    ∀ p : VadProcessor EnergyVad,
      (∀ c ∈ cs, SilentChunk c) →
      p.state = ProcessorState.Idle →
      p.detector.current_state = VadDecision.Silence →
      CleanDet p.detector →
      0 < p.detector.config.threshold →
      ∃ p2, processRun (detect sq) p cs = some (p2, []) ∧
        p2.state = ProcessorState.Idle ∧
        p2.detector.current_state = VadDecision.Silence ∧
        CleanDet p2.detector ∧
        p2.detector.config = p.detector.config := by
  induction cs with
  | nil =>
      intro p _ h1 h2 h3 _
      exact ⟨p, rfl, h1, h2, h3, rfl⟩
  | cons c cs ih =>
      intro p hsil hidle hcur hcl ht
      obtain ⟨st1, hup, hcl1, hcfg1, hcur1, hsc1, hslc1, hdet⟩ :=
        detect_silent sq hsq0 p.detector c hcl ht (hsil c (by simp))
      have hcur1S : st1.current_state = VadDecision.Silence := by
        rw [hcur1, hcur]
      have hvs := vadStep_silence_false st1 hcur1S
      rw [hvs] at hdet
      have hproc := process_detect (detect sq) p c VadDecision.Silence _ hdet
      rw [processStep_idle_silence p c _ hidle] at hproc
      obtain ⟨p2, hrun, h1, h2, h3, h4⟩ :=
        ih ({ p with
                detector := { st1 with speech_count := 0 }
                pre_roll_buffer :=
                  trimFront (computeMaxPreRoll p c) (p.pre_roll_buffer ++ [c])
                max_pre_roll_chunks := computeMaxPreRoll p c })
          (fun x hx => hsil x (by simp [hx]))
          hidle hcur1S hcl1
          (by rw [show st1.config = p.detector.config from hcfg1]; exact ht)
      refine ⟨p2, ?_, h1, h2, h3, by rw [h4]; exact hcfg1⟩
      have := processRun_cons (detect sq) p _ p2 c cs none [] hproc hrun
      simpa using this

/-- An above-threshold run drives the processor through the hysteresis
warm-up without emitting anything: after `k` consumed speech chunks the
detector is still counting (below `min_speech_chunks`) or the processor is
collecting speech, and this is preserved chunk by chunk. -/
lemma run_above (sq : ℚ → ℚ) (cfg : EnergyVadConfig)
    (ht : 0 < cfg.threshold) (spk : List AudioChunk) :
    ∀ (st : EnergyVad) (p : VadProcessor EnergyVad) (k : ℕ),
      AboveRun sq st spk →
      p.detector = st →
      st.config = cfg →
      CleanDet st →
      (cfg.min_speech_chunks ≤ k →
        st.current_state = VadDecision.Speech ∧ st.silence_count = 0 ∧
        p.state = ProcessorState.InSpeech) →
      (k < cfg.min_speech_chunks →
        st.current_state = VadDecision.Silence ∧ st.speech_count = k ∧
        p.state = ProcessorState.Idle) →
      ∃ p2 : VadProcessor EnergyVad,
        processRun (detect sq) p spk = some (p2, []) ∧
        p2.detector.config = cfg ∧
        CleanDet p2.detector ∧
        (cfg.min_speech_chunks ≤ k + spk.length →
          p2.detector.current_state = VadDecision.Speech ∧
          p2.detector.silence_count = 0 ∧ p2.state = ProcessorState.InSpeech) ∧
        (k + spk.length < cfg.min_speech_chunks →
          p2.detector.current_state = VadDecision.Silence ∧
          p2.detector.speech_count = k + spk.length ∧
          p2.state = ProcessorState.Idle) := by
  induction spk with
  | nil =>
      intro st p k hab hdp hcfg hcl hsp hsl
      refine ⟨p, rfl, by rw [hdp, hcfg], by rw [hdp]; exact hcl, ?_, ?_⟩
      · intro h
        obtain ⟨h1, h2, h3⟩ := hsp (by simpa using h)
        exact ⟨by rw [hdp]; exact h1, by rw [hdp]; exact h2, h3⟩
      · intro h
        obtain ⟨h1, h2, h3⟩ := hsl (by simpa using h)
        exact ⟨by rw [hdp]; exact h1, by rw [hdp]; exact h2; , h3⟩
  | cons c cs ih =>
      intro st p k hab hdp hcfg hcl hsp hsl
      cases hab with
      | @cons _ st1 _ _ hup hgt htail =>
      obtain ⟨hcfg1, hsc1, hslc1, hcur1⟩ := update_fields st _ st1 hup
      have hcl1 : CleanDet st1 :=
        clean_above st st1 _ hcl (by rw [hcfg]; exact ht) hup hgt
      have hdet := detect_intro sq st st1 c hup
      rw [hgt] at hdet
      by_cases hk : cfg.min_speech_chunks ≤ k
      · -- already in speech: keep collecting
        obtain ⟨hcurS, hslc0, hps⟩ := hsp hk
        have hcur1S : st1.current_state = VadDecision.Speech := by
          rw [hcur1, hcurS]
        have hvs := vadStep_speech_true st1 hcur1S
        rw [hvs] at hdet
        rw [hvs] at htail
        dsimp only at htail
        have hproc := process_detect (detect sq) p c VadDecision.Speech _
          (by rw [hdp]; exact hdet)
        rw [processStep_inSpeech_speech p c _ hps] at hproc
        obtain ⟨p2, hrun, hc2, hcl2, hsp2, hsl2⟩ :=
          ih ({ st1 with
                  silence_count := 0
                  speech_count := st1.speech_count + 1 })
            ({ p with
                 detector := { st1 with
                                 silence_count := 0
                                 speech_count := st1.speech_count + 1 }
                 speech_buffer := p.speech_buffer ++ [c]
                 max_pre_roll_chunks := computeMaxPreRoll p c })
            (k + 1) htail rfl (hcfg1.trans hcfg) hcl1
            (fun _ => ⟨hcur1S, rfl, hps⟩)
            (fun hlt => absurd hk (by omega))
        refine ⟨p2, ?_, hc2, hcl2, ?_, ?_⟩
        · have := processRun_cons (detect sq) p _ p2 c cs none [] hproc hrun
          simpa using this
        · intro h
          exact hsp2 (by simp only [List.length_cons] at h ⊢; omega)
        · intro h
          obtain ⟨h1, h2, h3⟩ := hsl2 (by simp only [List.length_cons] at h ⊢; omega)
          exact ⟨h1, by rw [h2]; simp only [List.length_cons]; omega, h3⟩
      · -- still counting up in the Silence state
        obtain ⟨hcurSl, hsck, hpidle⟩ := hsl (by omega)
        have hcur1Sl : st1.current_state = VadDecision.Silence := by
          rw [hcur1, hcurSl]
        have hvs := vadStep_silence_true st1 hcur1Sl
        have hc1c : st1.config = cfg := hcfg1.trans hcfg
        rw [show st1.speech_count = k from hsc1.trans hsck] at hvs
        by_cases hk1 : cfg.min_speech_chunks ≤ k + 1
        · -- the chunk completes the warm-up: transition to InSpeech
          rw [if_pos (by rw [hc1c]; exact hk1)] at hvs
          rw [hvs] at hdet
          rw [hvs] at htail
          dsimp only at htail
          have hproc := process_detect (detect sq) p c VadDecision.Speech _
            (by rw [hdp]; exact hdet)
          rw [processStep_idle_speech p c _ hpidle] at hproc
          obtain ⟨p2, hrun, hc2, hcl2, hsp2, hsl2⟩ :=
            ih ({ st1 with
                    speech_count := k + 1
                    silence_count := 0
                    current_state := VadDecision.Speech })
              ({ p with
                   detector := { st1 with
                                   speech_count := k + 1
                                   silence_count := 0
                                   current_state := VadDecision.Speech }
                   state := ProcessorState.InSpeech
                   pre_roll_buffer := []
                   speech_buffer := p.speech_buffer ++
                     trimFront (computeMaxPreRoll p c) (p.pre_roll_buffer ++ [c]) ++ [c]
                   max_pre_roll_chunks := computeMaxPreRoll p c })
              (k + 1) htail rfl (hcfg1.trans hcfg) hcl1
              (fun _ => ⟨rfl, rfl, rfl⟩)
              (fun hlt => absurd hk1 (by omega))
          refine ⟨p2, ?_, hc2, hcl2, ?_, ?_⟩
          · have := processRun_cons (detect sq) p _ p2 c cs none [] hproc hrun
            simpa using this
          · intro h
            exact hsp2 (by simp only [List.length_cons] at h ⊢; omega)
          · intro h
            obtain ⟨h1, h2, h3⟩ := hsl2 (by simp only [List.length_cons] at h ⊢; omega)
            exact ⟨h1, by rw [h2]; simp only [List.length_cons]; omega, h3⟩
        · -- not enough consecutive speech yet: stay Idle
          rw [if_neg (by rw [hc1c]; exact hk1)] at hvs
          rw [hvs] at hdet
          rw [hvs] at htail
          dsimp only at htail
          have hproc := process_detect (detect sq) p c VadDecision.Silence _
            (by rw [hdp]; exact hdet)
          rw [processStep_idle_silence p c _ hpidle] at hproc
          obtain ⟨p2, hrun, hc2, hcl2, hsp2, hsl2⟩ :=
            ih ({ st1 with
                    speech_count := k + 1
                    silence_count := 0 })
              ({ p with
                   detector := { st1 with
                                   speech_count := k + 1
                                   silence_count := 0 }
                   pre_roll_buffer :=
                     trimFront (computeMaxPreRoll p c) (p.pre_roll_buffer ++ [c])
                   max_pre_roll_chunks := computeMaxPreRoll p c })
              (k + 1) htail rfl (hcfg1.trans hcfg) hcl1
              (fun hge => absurd hge hk1)
              (fun _ => ⟨hcur1Sl, rfl, hpidle⟩)
          refine ⟨p2, ?_, hc2, hcl2, ?_, ?_⟩
          · have := processRun_cons (detect sq) p _ p2 c cs none [] hproc hrun
            simpa using this
          · intro h
            exact hsp2 (by simp only [List.length_cons] at h ⊢; omega)
          · intro h
            obtain ⟨h1, h2, h3⟩ := hsl2 (by simp only [List.length_cons] at h ⊢; omega)
            exact ⟨h1, by rw [h2]; simp only [List.length_cons]; omega, h3⟩

/-- Feeding exactly the missing number of silent chunks to a processor
that is collecting speech closes the segment: the run emits exactly one
segment, at the last chunk. -/
lemma run_close (sq : ℚ → ℚ) (hsq0 : sq 0 = 0) (cfg : EnergyVadConfig)
    (ht : 0 < cfg.threshold) (sil : List AudioChunk) :
    ∀ (p : VadProcessor EnergyVad) (j : ℕ),
      (∀ c ∈ sil, SilentChunk c) →
      p.detector.config = cfg →
      CleanDet p.detector →
      p.detector.current_state = VadDecision.Speech →
      p.detector.silence_count = j →
      p.state = ProcessorState.InSpeech →
      j + sil.length = cfg.min_silence_chunks →
      1 ≤ sil.length →
      ∃ p2 seg, processRun (detect sq) p sil = some (p2, [seg]) := by
  induction sil with
  | nil =>
      intro p j _ _ _ _ _ _ _ hlen
      exact absurd hlen (by norm_num)
  | cons c cs ih =>
      intro p j hsil hcfg hcl hcur hslc hstate hsum _
      obtain ⟨st1, hup, hcl1, hcfg1, hcur1, hsc1, hslc1, hdet⟩ :=
        detect_silent sq hsq0 p.detector c hcl (by rw [hcfg]; exact ht)
          (hsil c (by simp))
      have hcur1S : st1.current_state = VadDecision.Speech := by
        rw [hcur1, hcur]
      have hvs := vadStep_speech_false st1 hcur1S
      have hc1c : st1.config = cfg := hcfg1.trans hcfg
      rw [show st1.silence_count = j from hslc1.trans hslc] at hvs
      by_cases hend : cs = []
      · -- last silent chunk: the hysteresis flips to Silence and the
        -- processor emits the collected segment
        subst hend
        have hmsl : cfg.min_silence_chunks ≤ j + 1 := by
          simp only [List.length_cons, List.length_nil] at hsum
          omega
        rw [if_pos (by rw [hc1c]; exact hmsl)] at hvs
        rw [hvs] at hdet
        have hproc := process_detect (detect sq) p c VadDecision.Silence _ hdet
        rw [processStep_inSpeech_silence p c _ hstate] at hproc
        have hrc := processRun_cons (detect sq) p _ _ c []
          (some (SpeechSegment.new (p.speech_buffer ++ [c]))) [] hproc rfl
        simp only [Option.toList_some, List.append_nil] at hrc
        exact ⟨_, _, hrc⟩
      · -- more silence to come: keep counting inside the segment
        have hlen : 1 ≤ cs.length := by
          cases cs with
          | nil => exact absurd rfl hend
          | cons x xs => simp
        have hlt : ¬ cfg.min_silence_chunks ≤ j + 1 := by
          simp only [List.length_cons] at hsum
          omega
        rw [if_neg (by rw [hc1c]; exact hlt)] at hvs
        rw [hvs] at hdet
        have hproc := process_detect (detect sq) p c VadDecision.Speech _ hdet
        rw [processStep_inSpeech_speech p c _ hstate] at hproc
        obtain ⟨p2, seg, hrun⟩ :=
          ih ({ p with
                  detector := { st1 with
                                  speech_count := 0
                                  silence_count := j + 1 }
                  speech_buffer := p.speech_buffer ++ [c]
                  max_pre_roll_chunks := computeMaxPreRoll p c })
            (j + 1)
            (fun x hx => hsil x (by simp [hx]))
            (hcfg1.trans hcfg) hcl1 hcur1S rfl hstate
            (by simp only [List.length_cons] at hsum; omega)
            hlen
        refine ⟨p2, seg, ?_⟩
        have := processRun_cons (detect sq) p _ p2 c cs none [seg] hproc hrun
        simpa using this

/-- C2: for the fresh VAD processor over the fresh energy detector with
positive threshold, (1) a purely silent signal (all-zero samples) never
emits a segment, for any number of chunks, and (2) a signal whose chunks
are classified above the effective threshold for at least
`min_speech_chunks` consecutive chunks, followed by exactly
`min_silence_chunks` purely silent chunks, makes the run over that input
return exactly one segment. -/
theorem claim2_roundtrip (sq : ℚ → ℚ) (hsq0 : sq 0 = 0)
    (vcfg : EnergyVadConfig) (pcfg : VadProcessorConfig)
    (ht : 0 < vcfg.threshold)
    (hmss : 1 ≤ vcfg.min_speech_chunks)
    (hmsl : 1 ≤ vcfg.min_silence_chunks) :
    (∀ cs : List AudioChunk, (∀ c ∈ cs, SilentChunk c) →
        ∃ p2, processRun (detect sq) (VadProcessor.new pcfg (EnergyVad.new vcfg)) cs =
          some (p2, [])) ∧
    (∀ spk sil : List AudioChunk,
        AboveRun sq (EnergyVad.new vcfg) spk →
        vcfg.min_speech_chunks ≤ spk.length →
        (∀ c ∈ sil, SilentChunk c) →
        sil.length = vcfg.min_silence_chunks →
        ∃ p2 seg,
          processRun (detect sq) (VadProcessor.new pcfg (EnergyVad.new vcfg))
            (spk ++ sil) = some (p2, [seg])) := by
  constructor
  · intro cs hsil
    obtain ⟨p2, hrun, -, -, -, -⟩ :=
      run_silent sq hsq0 cs (VadProcessor.new pcfg (EnergyVad.new vcfg)) hsil rfl rfl
        (CleanDet_new vcfg) ht
    exact ⟨p2, hrun⟩
  · intro spk sil hab hlen hsil hslen
    obtain ⟨pm, hrun1, hcfgm, hclm, hspm, -⟩ :=
      run_above sq vcfg ht spk (EnergyVad.new vcfg)
        (VadProcessor.new pcfg (EnergyVad.new vcfg)) 0 hab rfl rfl (CleanDet_new vcfg)
        (fun h => absurd (le_trans hmss h) (by norm_num))
        (fun _ => ⟨rfl, rfl, rfl⟩)
    obtain ⟨hcurm, hslcm, hstm⟩ := hspm (by omega)
    obtain ⟨p2, seg, hrun2⟩ :=
      run_close sq hsq0 vcfg ht sil pm 0 hsil hcfgm hclm hcurm hslcm hstm
        (by omega) (by omega)
    exact ⟨p2, seg, processRun_append (detect sq) spk sil
      (VadProcessor.new pcfg (EnergyVad.new vcfg)) pm p2 [] [seg] hrun1 hrun2⟩

/-- Witness for C2: with the identity square root and the fixed-threshold
configuration, one silent chunk emits nothing, while one loud chunk
followed by one silent chunk emits exactly one segment. -/
theorem claim2_witness :
    (∃ p2, processRun (detect id)
        (VadProcessor.new { pre_roll_ms := 300, post_roll_ms := 500 }
          (EnergyVad.new ceVadConfig)) [chunkB] = some (p2, [])) ∧
    (∃ p2 seg, processRun (detect id)
        (VadProcessor.new { pre_roll_ms := 300, post_roll_ms := 500 }
          (EnergyVad.new ceVadConfig)) ([chunkA] ++ [chunkB]) = some (p2, [seg])) := by
  have hsilB : ∀ c ∈ [chunkB], SilentChunk c := by
    intro x hx
    rw [List.mem_singleton] at hx
    subst hx
    intro s hs
    simp only [chunkB] at hs
    rw [List.mem_singleton] at hs
    exact hs
  have h := claim2_roundtrip id rfl ceVadConfig { pre_roll_ms := 300, post_roll_ms := 500 }
    (by norm_num [ceVadConfig]) (by norm_num [ceVadConfig]) (by norm_num [ceVadConfig])
  refine ⟨h.1 [chunkB] hsilB, h.2 [chunkA] [chunkB] ?_ ?_ hsilB ?_⟩
  · exact @AboveRun.cons id (EnergyVad.new ceVadConfig) (EnergyVad.new ceVadConfig)
      chunkA [] rfl
      (by norm_num [calculate_rms_energy, sumSquares, addF, mulF, divF, sqrtF,
        get_threshold, fgt, chunkA, ceVadConfig, EnergyVad.new])
      (AboveRun.nil _)
  · norm_num [ceVadConfig]
  · norm_num [ceVadConfig]

end Onevox
